import Mathlib

/-!
# Verification of the match-my-guess server core

This file embeds the in-memory session state machine of the repository's
socket server (`src/server/server.ts`, first variant) together with the
`WordMatchGame` engine (`src/server/games/WordMatchGame.ts`) as executable
Lean definitions, and proves properties of the join/leave/disconnect/
setSecretWord/makeGuess handlers, the win-detection algorithms, the public
state redaction, and the write-behind database operation queue.

Words are modelled as lists of characters; JavaScript `Map` objects are
modelled as insertion-ordered association lists with the same `get`,
`set` (overwrite in place, else append) and `delete` (remove the entry
with the key) semantics.  Timestamps are natural numbers.  Database
identifiers and network effects are outside the in-memory model; the
payload of the `gameState` broadcast performed by the `makeGuess` handler
is returned explicitly because it is the object the redaction claims are
about.
-/

namespace MatchMyGuess

/-- Words (guesses and secret words) as lists of characters. -/
abbrev Word := List Char

/-- Whitespace characters removed by JavaScript `String.prototype.trim`
(the whitespace characters that occur in this code base). -/
def jsIsSpace (c : Char) : Bool :=
  c = ' ' || c = '\t' || c = '\n' || c = '\r'

/-- `word.toLowerCase()`. -/
def jsToLower (w : Word) : Word := w.map Char.toLower

/-- `word.trim()`: drop whitespace from both ends. -/
def jsTrim (w : Word) : Word :=
  ((w.dropWhile jsIsSpace).reverse.dropWhile jsIsSpace).reverse

/-- `word.toLowerCase().trim()` — the normalization applied by the
`makeGuess` and `setSecretWord` handlers before storing a word. -/
def normalizeWord (w : Word) : Word := jsTrim (jsToLower w)

/-! ## JavaScript `Map` as an insertion-ordered association list -/

/-- `Map.prototype.get`. -/
def mapGet {α : Type} (m : List (String × α)) (k : String) : Option α :=
  match m with
  | [] => none
  | e :: rest => if e.1 = k then some e.2 else mapGet rest k

/-- `Map.prototype.set`: overwrite in place when the key is present
(keeping its position), otherwise append at the end. -/
def mapSet {α : Type} (m : List (String × α)) (k : String) (v : α) :
    List (String × α) :=
  match m with
  | [] => [(k, v)]
  | e :: rest => if e.1 = k then (k, v) :: rest else e :: mapSet rest k v

/-- `Map.prototype.delete`: remove the entry with the key. -/
def mapDelete {α : Type} (m : List (String × α)) (k : String) :
    List (String × α) :=
  match m with
  | [] => []
  | e :: rest => if e.1 = k then rest else e :: mapDelete rest k

/-! ## Data model of `server.ts` (first variant) -/

/-- `type GameStatus = 'WAITING' | 'SETTING_WORDS' | 'PLAYING' | 'COMPLETED'`. -/
inductive GameStatus where
  | WAITING
  | SETTING_WORDS
  | PLAYING
  | COMPLETED
deriving DecidableEq, Repr

/-- In-memory `Player` (the database id field, used only by the
persistence queue, is omitted). -/
structure Player where
  id : String
  name : String
  socketId : String
  secretWord : Word
  isHost : Bool
deriving DecidableEq, Repr

/-- In-memory `Guess`. -/
structure Guess where
  id : String
  playerId : String
  playerName : String
  word : Word
  timestamp : Nat
deriving DecidableEq, Repr

/-- In-memory `Game` (the database ids `lobbyId`/`gameId` and `createdAt`,
used only for persistence, are omitted). -/
structure Game where
  id : String
  title : String
  status : GameStatus
  players : List Player
  guesses : List Guess
  winningWord : Option Word
deriving DecidableEq, Repr

/-- The server's mutable in-memory storage: the `games` map and the
`playerToGame` socket binding map. -/
structure ServerState where
  games : List (String × Game)
  playerToGame : List (String × String)
deriving DecidableEq, Repr

/-! ## Win detection (`checkForMatchingGuess`, server variant) -/

/-- Insert `x` into a sorted list, in front of the first element `h`
with `le x h` — the insertion step of a stable insertion sort. -/
def insertSorted {α : Type} (le : α → α → Bool) (x : α) :
    List α → List α
  | [] => [x]
  | h :: t => if le x h then x :: h :: t else h :: insertSorted le x t

/-- Stable sort with respect to `le` (`le a b` = `a` may precede `b`).
JavaScript's `Array.prototype.sort` is stable, and all stable sorts by
the same key coincide, so stable insertion sort is a faithful (and
kernel-executable) model of it. -/
def stableSort {α : Type} (le : α → α → Bool) (l : List α) : List α :=
  l.foldr (insertSorted le) []

/-- `[...game.guesses].sort((a, b) => ta - tb)`: stable sort by
timestamp, ascending. -/
def sortGuesses (gs : List Guess) : List Guess :=
  stableSort (fun a b => a.timestamp ≤ b.timestamp) gs

/-- `checkForMatchingGuess` of `server.ts`: build the map of each
player's most recent guess by a chronological forward scan, then report
the common word when at least two entries exist and all entries agree. -/
def checkForMatchingGuess (game : Game) : Option Word :=
  if game.guesses.length < 2 then none
  else
    let sortedGuesses := sortGuesses game.guesses
    let recentGuesses :=
      sortedGuesses.foldl (fun m g => mapSet m g.playerId g.word) []
    let guessValues := recentGuesses.map (fun e => e.2)
    if 2 ≤ guessValues.length then
      match guessValues with
      | [] => none
      | firstGuess :: _ =>
        if guessValues.all (fun g => g = firstGuess) then some firstGuess
        else none
    else none

/-! ## Socket handlers of `server.ts` (in-memory effects) -/

/-- `socket.on('createGame')`: fresh ids are supplied as parameters
(the source draws them from `uuidv4()`); the database writes are outside
the in-memory model. -/
def createGame (st : ServerState) (sock gameId playerName title
    newPlayerId : String) : ServerState :=
  let player : Player :=
    { id := newPlayerId, name := playerName, socketId := sock,
      secretWord := [], isHost := true }
  let game : Game :=
    { id := gameId, title := title, status := .WAITING,
      players := [player], guesses := [], winningWord := none }
  { games := mapSet st.games gameId game,
    playerToGame := mapSet st.playerToGame sock gameId }

/-- The updated game produced by an accepted `joinGame`: the new player
is appended, and when the roster reaches two players the status advances
to `SETTING_WORDS`. -/
def joinedGame (game : Game) (sock playerName newPlayerId : String) :
    Game :=
  let player : Player :=
    { id := newPlayerId, name := playerName, socketId := sock,
      secretWord := [], isHost := false }
  let players1 := game.players ++ [player]
  let status1 :=
    if players1.length = 2 then GameStatus.SETTING_WORDS
    else game.status
  { game with players := players1, status := status1 }

/-- `socket.on('joinGame')`: returns the new state and the value passed
to the acknowledgement callback. -/
def joinGame (st : ServerState) (sock gameId playerName newPlayerId :
    String) : ServerState × Bool :=
  let currentGameId := mapGet st.playerToGame sock
  if currentGameId = some gameId ∧ (mapGet st.games gameId).isSome then
    (st, true)
  else
    match mapGet st.games gameId with
    | none => (st, false)
    | some game =>
      if 2 ≤ game.players.length ∨ game.status ≠ .WAITING then (st, false)
      else
        ({ games := mapSet st.games gameId
             (joinedGame game sock playerName newPlayerId),
           playerToGame := mapSet st.playerToGame sock gameId }, true)

/-- Replace the first element satisfying the predicate (the source finds
the player object and mutates it in place). -/
def updateFirst {α : Type} (p : α → Bool) (f : α → α) :
    List α → List α
  | [] => []
  | x :: xs => if p x then f x :: xs else x :: updateFirst p f xs

/-- The updated game produced by an accepted `setSecretWord`: the
calling socket's player receives `word.toLowerCase().trim()` as secret
word, and when afterwards every player has a non-empty secret word
(JavaScript truthiness of the string) and the game is in
`SETTING_WORDS`, the status advances to `PLAYING`. -/
def setWordGame (game : Game) (sock : String) (word : Word) : Game :=
  let players1 := updateFirst (fun p => p.socketId = sock)
    (fun p => { p with secretWord := normalizeWord word })
    game.players
  let allPlayersReady := players1.all (fun p => p.secretWord ≠ [])
  let status1 :=
    if allPlayersReady ∧ game.status = .SETTING_WORDS then
      GameStatus.PLAYING
    else game.status
  { game with players := players1, status := status1 }

/-- `socket.on('setSecretWord')`. -/
def setSecretWord (st : ServerState) (sock : String) (word : Word) :
    ServerState × Bool :=
  match mapGet st.playerToGame sock with
  | none => (st, false)
  | some gameId =>
    match mapGet st.games gameId with
    | none => (st, false)
    | some game =>
      if (game.players.find? (fun p => p.socketId = sock)).isSome then
        let game1 := setWordGame game sock word
        ({ st with games := mapSet st.games gameId game1 }, true)
      else (st, false)

/-- Result of the `makeGuess` handler: the new server state, the
acknowledgement value, and the payload of the
`io.to(gameId).emit('gameState', game)` broadcast (absent when the guess
was rejected before reaching the broadcast). -/
structure GuessResult where
  state : ServerState
  ack : Bool
  broadcastGameState : Option Game
deriving DecidableEq, Repr

/-- The `Guess` record an accepted `makeGuess` appends: the word is
stored as `word.toLowerCase().trim()`. -/
def appendedGuess (player : Player) (word : Word) (guessId : String)
    (timestamp : Nat) : Guess :=
  { id := guessId, playerId := player.id, playerName := player.name,
    word := normalizeWord word, timestamp := timestamp }

/-- The updated game produced by an accepted `makeGuess`: the guess is
appended, the win check runs, and on a match the status becomes
`COMPLETED` with the matching word recorded. -/
def makeGuessResultGame (game : Game) (player : Player) (word : Word)
    (guessId : String) (timestamp : Nat) : Game :=
  let game1 := { game with guesses :=
    game.guesses ++ [appendedGuess player word guessId timestamp] }
  match checkForMatchingGuess game1 with
  | some w => { game1 with status := .COMPLETED, winningWord := some w }
  | none => game1

/-- `socket.on('makeGuess')`: rejected unless the socket is bound to an
existing game in `PLAYING` status with a player for this socket.  The
raw updated `Game` object is what the handler broadcasts as
`gameState`. -/
def makeGuess (st : ServerState) (sock : String) (word : Word)
    (guessId : String) (timestamp : Nat) : GuessResult :=
  match mapGet st.playerToGame sock with
  | none => { state := st, ack := false, broadcastGameState := none }
  | some gameId =>
    match mapGet st.games gameId with
    | none => { state := st, ack := false, broadcastGameState := none }
    | some game =>
      if game.status ≠ .PLAYING then
        { state := st, ack := false, broadcastGameState := none }
      else
        match game.players.find? (fun p => p.socketId = sock) with
        | none => { state := st, ack := false, broadcastGameState := none }
        | some player =>
          let game2 := makeGuessResultGame game player word guessId
            timestamp
          { state := { st with games := mapSet st.games gameId game2 },
            ack := true, broadcastGameState := some game2 }

/-- `socket.on('leaveGame')` (in-memory effect): splice the first player
bound to the socket out of the roster, delete the game when the roster
empties, otherwise reset a non-`COMPLETED` status to `WAITING` and
promote the first remaining player to host; finally delete the socket
binding. -/
def leaveGame (st : ServerState) (sock : String) : ServerState :=
  match mapGet st.playerToGame sock with
  | none => st
  | some gameId =>
    let st1 :=
      match mapGet st.games gameId with
      | none => st
      | some game =>
        match game.players.findIdx? (fun p : Player => p.socketId = sock) with
        | none => st
        | some playerIndex =>
          let players1 := game.players.eraseIdx playerIndex
          if players1.length = 0 then
            { st with games := mapDelete st.games gameId }
          else
            let status1 :=
              if game.status ≠ .COMPLETED then GameStatus.WAITING
              else game.status
            let players2 :=
              match players1 with
              | [] => []
              | p :: rest => { p with isHost := true } :: rest
            let game1 :=
              { game with players := players2, status := status1 }
            { st with games := mapSet st.games gameId game1 }
    { st1 with playerToGame := mapDelete st1.playerToGame sock }

/-- `socket.on('disconnect')` (in-memory effect): the handler body
duplicates the player-removal code of `leaveGame`, so it too splices the
bound player out of the roster, deletes an emptied game, resets a
non-`COMPLETED` status to `WAITING`, promotes a new host, and deletes
the socket binding. -/
def handleDisconnect (st : ServerState) (sock : String) : ServerState :=
  match mapGet st.playerToGame sock with
  | none => st
  | some gameId =>
    let st1 :=
      match mapGet st.games gameId with
      | none => st
      | some game =>
        match game.players.findIdx? (fun p : Player => p.socketId = sock) with
        | none => st
        | some playerIndex =>
          let players1 := game.players.eraseIdx playerIndex
          if players1.length = 0 then
            { st with games := mapDelete st.games gameId }
          else
            let status1 :=
              if game.status ≠ .COMPLETED then GameStatus.WAITING
              else game.status
            let players2 :=
              match players1 with
              | [] => []
              | p :: rest => { p with isHost := true } :: rest
            let game1 :=
              { game with players := players2, status := status1 }
            { st with games := mapSet st.games gameId game1 }
    { st1 with playerToGame := mapDelete st1.playerToGame sock }

/-! ## Operation sequences over the server state -/

/-- One client-triggered operation of the socket server. -/
inductive SOp where
  | create (sock gameId playerName title newPlayerId : String)
  | join (sock gameId playerName newPlayerId : String)
  | setWord (sock : String) (word : Word)
  | guess (sock : String) (word : Word) (guessId : String)
      (timestamp : Nat)
  | leave (sock : String)
  | dropConn (sock : String)
deriving Repr

/-- Apply one operation (the acknowledgement value is discarded). -/
def stepOp (st : ServerState) : SOp → ServerState
  | .create sock gameId playerName title newPlayerId =>
    createGame st sock gameId playerName title newPlayerId
  | .join sock gameId playerName newPlayerId =>
    (joinGame st sock gameId playerName newPlayerId).1
  | .setWord sock word => (setSecretWord st sock word).1
  | .guess sock word guessId timestamp =>
    (makeGuess st sock word guessId timestamp).state
  | .leave sock => leaveGame st sock
  | .dropConn sock => handleDisconnect st sock

/-- The empty initial state (`games` and `playerToGame` both empty). -/
def initialState : ServerState := { games := [], playerToGame := [] }

/-- Run a sequence of operations from the initial state. -/
def runOps (ops : List SOp) : ServerState :=
  ops.foldl stepOp initialState

/-- Every game in the map has at most two players — the lobby's
`maxPlayers`. -/
def RosterInv (st : ServerState) : Prop :=
  ∀ e ∈ st.games, e.2.players.length ≤ 2

/-- Rank of a status in the phase order
`WAITING < SETTING_WORDS < PLAYING < COMPLETED`. -/
def statusRank : GameStatus → Nat
  | .WAITING => 0
  | .SETTING_WORDS => 1
  | .PLAYING => 2
  | .COMPLETED => 3

/-! ## The `WordMatchGame` engine -/

/-- Status strings used by `WordMatchGame` (`this.status`). -/
inductive WMStatus where
  | WAITING
  | SETTING_WORDS
  | PLAYING
  | COMPLETED
  | ABANDONED
  | IN_PROGRESS
deriving DecidableEq, Repr

/-- A roster entry of `WordMatchGame.players`. -/
structure WMPlayer where
  id : String
  name : String
  socketId : Option String
  secretWord : Option Word
  isHost : Bool
deriving DecidableEq, Repr

/-- An entry of `WordMatchGame.guesses`. -/
structure WMGuess where
  id : String
  playerId : String
  playerName : String
  word : Word
deriving DecidableEq, Repr

/-- In-memory state of one `WordMatchGame` instance (timers and database
fields are outside the model; `countdownSeconds` is kept because
`startCountdown` sets it synchronously). -/
structure WMGame where
  players : List (String × WMPlayer)
  guesses : List WMGuess
  status : WMStatus
  winningWord : Option Word
  countdownSeconds : Nat
deriving DecidableEq, Repr

/-- `WordMatchGame.addPlayer`: a no-op (net of broadcasts) when the
player id is already present; otherwise append the player and, when the
roster reaches two players in `WAITING`, start the five-second
countdown. -/
def wmAddPlayer (g : WMGame) (playerId playerName : String)
    (isHost : Bool) : WMGame :=
  if (mapGet g.players playerId).isSome then g
  else
    let newPlayer : WMPlayer :=
      { id := playerId, name := playerName, socketId := none,
        secretWord := none, isHost := isHost }
    let g1 := { g with players := g.players ++ [(playerId, newPlayer)] }
    if g1.players.length = 2 ∧ g1.status = .WAITING then
      { g1 with countdownSeconds := 5 }
    else g1

/-- The backward scan of `WordMatchGame.checkForMatchingGuess`: walk the
guesses latest-first, record the first word seen for each player id, and
stop as soon as the accumulated map has one entry per roster player. -/
def wmLatestScan (numPlayers : Nat) :
    List WMGuess → List (String × Word) → List (String × Word)
  | [], acc => acc
  | g :: rest, acc =>
    let acc1 :=
      if acc.any (fun e => e.1 = g.playerId) then acc
      else acc ++ [(g.playerId, g.word)]
    if acc1.length = numPlayers then acc1
    else wmLatestScan numPlayers rest acc1

/-- `WordMatchGame.checkForMatchingGuess`. -/
def wmCheckForMatchingGuess (g : WMGame) : Option Word :=
  if g.guesses.length < 2 then none
  else
    let playerIds := g.players.map (fun e => e.1)
    let latestGuessesByPlayer :=
      wmLatestScan playerIds.length g.guesses.reverse []
    let allGuesses := latestGuessesByPlayer.map (fun e => e.2)
    if allGuesses.length < 2 then none
    else
      match allGuesses with
      | [] => none
      | firstGuess :: _ =>
        if allGuesses.all (fun w => w = firstGuess) then some firstGuess
        else none

/-- `WordMatchGame.processMove`: the move payload is `none` when
`isMoveData` fails (no `word` field).  Note the method checks the payload
and the roster but not the game phase.  Fresh guess ids come from the
clock in the source and are supplied as a parameter here. -/
def wmProcessMove (g : WMGame) (playerId : String)
    (moveData : Option Word) (guessId : String) : WMGame × Bool :=
  match moveData with
  | none => (g, false)
  | some word =>
    match mapGet g.players playerId with
    | none => (g, false)
    | some player =>
      let guess : WMGuess :=
        { id := guessId, playerId := playerId, playerName := player.name,
          word := word }
      let g1 := { g with guesses := g.guesses ++ [guess] }
      match wmCheckForMatchingGuess g1 with
      | some w => ({ g1 with winningWord := some w }, true)
      | none => (g1, false)

/-- The per-player view appearing in `getGameState()` /
`getPublicGameState()` (fields relevant to redaction). -/
structure WMPlayerView where
  id : String
  name : String
  secretWord : Word
  isHost : Bool
deriving DecidableEq, Repr

/-- The placeholder `'[hidden]'`. -/
def hiddenWord : Word := ['[', 'h', 'i', 'd', 'd', 'e', 'n', ']']

/-- Player views of `getGameState()`: `secretWord: p.secretWord || ''`. -/
def wmPlayerViews (g : WMGame) : List WMPlayerView :=
  g.players.map (fun e =>
    { id := e.2.id, name := e.2.name,
      secretWord := (match e.2.secretWord with
        | some w => w
        | none => []),
      isHost := e.2.isHost })

/-- Player views of `getPublicGameState()`:
`secretWord: p.secretWord ? '[hidden]' : ''`. -/
def wmPublicPlayerViews (g : WMGame) : List WMPlayerView :=
  (wmPlayerViews g).map (fun p =>
    { p with secretWord := if p.secretWord ≠ [] then hiddenWord else [] })

/-! ## The write-behind database operation queue -/

/-- `MAX_RETRIES`. -/
def MAX_RETRIES : Nat := 3

/-- `BATCH_SIZE`. -/
def BATCH_SIZE : Nat := 10

/-- A queued database operation (`DbOperation`); the `type` and payload
fields, which only matter inside the transaction, are collapsed into an
opaque payload string. -/
structure DbOperation where
  payload : String
  retryCount : Nat
  priority : Nat
deriving DecidableEq, Repr

/-- The queue together with the in-memory `games` map it must never
touch. -/
structure QueueState where
  queue : List DbOperation
  games : List (String × Game)
deriving DecidableEq, Repr

/-- `DB_OPERATION_QUEUE.sort((a, b) => b.priority - a.priority)`: stable
sort, highest priority first. -/
def sortByPriority (q : List DbOperation) : List DbOperation :=
  stableSort (fun a b => b.priority ≤ a.priority) q

/-- The batch spliced off by one processor tick: the first
`min(BATCH_SIZE, length)` operations of the priority-sorted queue. -/
def drainBatch (s : QueueState) : List DbOperation :=
  let sorted := sortByPriority s.queue
  sorted.take (min BATCH_SIZE sorted.length)

/-- The operations remaining in the queue after the batch was spliced
off. -/
def drainRest (s : QueueState) : List DbOperation :=
  let sorted := sortByPriority s.queue
  sorted.drop (min BATCH_SIZE sorted.length)

/-- One tick of the batch processor in which the batch transaction
fails: the queue is sorted by priority, the first
`min(BATCH_SIZE, length)` operations are spliced off, and every
operation of the failed batch with `retryCount < MAX_RETRIES` is pushed
back with `retryCount + 1` while the others are dropped.  The in-memory
`games` map is not touched. -/
def drainStepFail (s : QueueState) : QueueState :=
  if s.queue.length = 0 then s
  else
    let requeued := (drainBatch s).filterMap (fun op =>
      if op.retryCount < MAX_RETRIES then
        some { op with retryCount := op.retryCount + 1 }
      else none)
    { s with queue := drainRest s ++ requeued }

/-- Remaining drain budget of one operation: how many more times the
failing processor will handle it before it disappears. -/
def opWeight (op : DbOperation) : Nat :=
  1 + (MAX_RETRIES + 1 - min op.retryCount (MAX_RETRIES + 1))

/-- Termination measure of the failing drain loop. -/
def queueMeasure (s : QueueState) : Nat :=
  (s.queue.map opWeight).sum

/-! ## Specification-side definitions used to characterize the win check -/

/-- The distinct author ids occurring in a game's guess log. -/
def authorsOf (g : Game) : List String :=
  (g.guesses.map (fun gu => gu.playerId)).dedup

/-- The word of the last (most recent in timestamp order, ties broken by
log order) guess of one author, scanning the chronologically sorted log. -/
def lastGuessWordOf (g : Game) (a : String) : Option Word :=
  (sortGuesses g.guesses).foldl
    (fun acc gu => if gu.playerId = a then some gu.word else acc) none

/-- Two submitted words differ only in letter case and in leading or
trailing whitespace: after lowercasing, both consist of the same core
word surrounded by whitespace, where the core carries no whitespace at
its ends. -/
def OnlyCaseOuterWsDiffer (w1 w2 : Word) : Prop :=
  ∃ core pre1 post1 pre2 post2,
    jsToLower w1 = pre1 ++ core ++ post1 ∧
    jsToLower w2 = pre2 ++ core ++ post2 ∧
    (∀ c ∈ pre1, jsIsSpace c) ∧ (∀ c ∈ post1, jsIsSpace c) ∧
    (∀ c ∈ pre2, jsIsSpace c) ∧ (∀ c ∈ post2, jsIsSpace c) ∧
    (∀ h : core ≠ [], ¬ jsIsSpace (core.head h) = true) ∧
    (∀ h : core ≠ [], ¬ jsIsSpace (core.getLast h) = true)

/-! ## Concrete example states used by counterexamples and witnesses -/

/-- Example player one, bound to socket `s1`. -/
def exP1 : Player :=
  { id := "p1", name := "Alice", socketId := "s1",
    secretWord := ['a', 'p', 'p', 'l', 'e'], isHost := true }

/-- Example player two, bound to socket `s2`. -/
def exP2 : Player :=
  { id := "p2", name := "Bob", socketId := "s2",
    secretWord := ['z', 'e', 'b', 'r', 'a'], isHost := false }

/-- Shorthand for an example guess. -/
def exGuess (pid : String) (w : Word) (t : Nat) : Guess :=
  { id := toString t, playerId := pid, playerName := pid, word := w,
    timestamp := t }

/-- The spec's scenario after three accepted moves:
`[(P1,"cat"), (P2,"dog"), (P1,"dog")]`. -/
def exC1game3 : Game :=
  { id := "g1", title := "t", status := .PLAYING,
    players := [exP1, exP2],
    guesses := [exGuess "p1" ['c', 'a', 't'] 0,
                exGuess "p2" ['d', 'o', 'g'] 1,
                exGuess "p1" ['d', 'o', 'g'] 2],
    winningWord := none }

/-- The spec's scenario after the fourth move `(P2,"dog")`. -/
def exC1game4 : Game :=
  { exC1game3 with
    guesses := exC1game3.guesses ++ [exGuess "p2" ['d', 'o', 'g'] 3] }

/-- Shorthand for an example `WordMatchGame` roster entry. -/
def exWmPlayer (pid : String) : String × WMPlayer :=
  (pid, { id := pid, name := pid, socketId := none, secretWord := none,
          isHost := false })

/-- Shorthand for an example `WordMatchGame` guess. -/
def exWmGuess (pid : String) (w : Word) : WMGuess :=
  { id := pid, playerId := pid, playerName := pid, word := w }

/-- The three-move scenario as a `WordMatchGame` instance with the
two-player roster `{p1, p2}`. -/
def exC1wm3 : WMGame :=
  { players := [exWmPlayer "p1", exWmPlayer "p2"],
    guesses := [exWmGuess "p1" ['c', 'a', 't'],
                exWmGuess "p2" ['d', 'o', 'g'],
                exWmGuess "p1" ['d', 'o', 'g']],
    status := .PLAYING, winningWord := none, countdownSeconds := 0 }

/-- The four-move scenario as a `WordMatchGame` instance. -/
def exC1wm4 : WMGame :=
  { exC1wm3 with
    guesses := exC1wm3.guesses ++ [exWmGuess "p2" ['d', 'o', 'g']] }

/-- A game whose current roster is `{p1, p2}` while the guess log holds
one guess by `p1` and one by the departed player `p3` (both `"dog"`);
`p2` has made no move. -/
def exC2game : Game :=
  { id := "g1", title := "t", status := .PLAYING,
    players := [exP1, exP2],
    guesses := [exGuess "p1" ['d', 'o', 'g'] 0,
                exGuess "p3" ['d', 'o', 'g'] 1],
    winningWord := none }

/-- The same scenario as a `WordMatchGame` instance. -/
def exC2wm : WMGame :=
  { players := [exWmPlayer "p1", exWmPlayer "p2"],
    guesses := [exWmGuess "p1" ['d', 'o', 'g'],
                exWmGuess "p3" ['d', 'o', 'g']],
    status := .PLAYING, winningWord := none, countdownSeconds := 0 }

/-- A two-player game in the `SETTING_WORDS` phase. -/
def exGameSettingWords : Game :=
  { id := "g1", title := "t", status := .SETTING_WORDS,
    players := [exP1, exP2], guesses := [], winningWord := none }

/-- Server state holding `exGameSettingWords` with both sockets bound. -/
def exStateSettingWords : ServerState :=
  { games := [("g1", exGameSettingWords)],
    playerToGame := [("s1", "g1"), ("s2", "g1")] }

/-- A two-player game in the `PLAYING` phase with both secret words set. -/
def exGamePlaying : Game :=
  { id := "g1", title := "t", status := .PLAYING,
    players := [exP1, exP2], guesses := [], winningWord := none }

/-- Server state holding `exGamePlaying` with both sockets bound. -/
def exStatePlaying : ServerState :=
  { games := [("g1", exGamePlaying)],
    playerToGame := [("s1", "g1"), ("s2", "g1")] }

/-- The word `"dog"`. -/
def dogWord : Word := ['d', 'o', 'g']

/-- A completed `WordMatchGame` with an empty guess log and the roster
`{p1, p2}`. -/
def exC6wm : WMGame :=
  { players := [exWmPlayer "p1", exWmPlayer "p2"], guesses := [],
    status := .COMPLETED, winningWord := none, countdownSeconds := 0 }

/-- A `WordMatchGame` roster player with the secret word `"apple"`
set. -/
def exWmSecretPlayer : WMPlayer :=
  { id := "p1", name := "Alice", socketId := none,
    secretWord := some ['a', 'p', 'p', 'l', 'e'], isHost := true }

/-- A `WordMatchGame` whose single roster player has the secret word
`"apple"` set. -/
def exWmSecretGame : WMGame :=
  { players := [("p1", exWmSecretPlayer)], guesses := [],
    status := .SETTING_WORDS, winningWord := none,
    countdownSeconds := 0 }

/-- The masked view of `exWmSecretPlayer` as produced by
`getPublicGameState()`. -/
def exMaskedView : WMPlayerView :=
  { id := "p1", name := "Alice", secretWord := hiddenWord,
    isHost := true }

/-- An example queue state: a fresh move operation and a
game-completion operation that has exhausted its retries. -/
def exQueue : QueueState :=
  { queue := [{ payload := "move1", retryCount := 0, priority := 1 },
              { payload := "done1", retryCount := 3, priority := 2 }],
    games := [("g1", exGamePlaying)] }

/-! # Theorems -/

/-! ## Association list lemmas -/

theorem mapGet_mapSet {α : Type} (m : List (String × α)) (k k0 : String)
    (v : α) :
    mapGet (mapSet m k v) k0 = if k = k0 then some v else mapGet m k0 := by
  induction m with
  | nil =>
    simp only [mapSet, mapGet]
  | cons e rest ih =>
    by_cases h : e.1 = k
    · simp only [mapSet, h, if_pos rfl, mapGet]
      by_cases h0 : k = k0
      · simp [h0]
      · simp [h0, mapGet, h, show ¬ e.1 = k0 from h ▸ h0]
    · simp only [mapSet, if_neg h, mapGet]
      by_cases h0 : e.1 = k0
      · have hk : ¬ k = k0 := fun hh => h (hh ▸ h0)
        simp [h0, hk]
      · simp [h0, ih]

theorem mem_mapSet {α : Type} {m : List (String × α)} {k : String}
    {v : α} {e : String × α} (h : e ∈ mapSet m k v) :
    e ∈ m ∨ e = (k, v) := by
  induction m with
  | nil =>
    simp only [mapSet, List.mem_singleton] at h
    exact Or.inr h
  | cons e0 rest ih =>
    by_cases h0 : e0.1 = k
    · simp only [mapSet, if_pos h0, List.mem_cons] at h
      rcases h with h | h
      · exact Or.inr h
      · exact Or.inl (List.mem_cons_of_mem _ h)
    · simp only [mapSet, if_neg h0, List.mem_cons] at h
      rcases h with h | h
      · exact Or.inl (h ▸ List.mem_cons_self _ _)
      · rcases ih h with h1 | h1
        · exact Or.inl (List.mem_cons_of_mem _ h1)
        · exact Or.inr h1

theorem mem_mapDelete {α : Type} {m : List (String × α)} {k : String}
    {e : String × α} (h : e ∈ mapDelete m k) : e ∈ m := by
  induction m with
  | nil =>
    simp [mapDelete] at h
  | cons e0 rest ih =>
    by_cases h0 : e0.1 = k
    · simp only [mapDelete, if_pos h0] at h
      exact List.mem_cons_of_mem _ h
    · simp only [mapDelete, if_neg h0, List.mem_cons] at h
      rcases h with h | h
      · exact h ▸ List.mem_cons_self _ _
      · exact List.mem_cons_of_mem _ (ih h)

theorem mapGet_mem {α : Type} {m : List (String × α)} {k : String}
    {v : α} (h : mapGet m k = some v) : (k, v) ∈ m := by
  induction m with
  | nil =>
    simp [mapGet] at h
  | cons e rest ih =>
    by_cases h0 : e.1 = k
    · simp only [mapGet, if_pos h0] at h
      have hv : e.2 = v := Option.some.inj h
      have he : e = (k, v) := Prod.ext h0 hv
      exact he ▸ List.mem_cons_self _ _
    · simp only [mapGet, if_neg h0] at h
      exact List.mem_cons_of_mem _ (ih h)

theorem mapGet_mapDelete_ne {α : Type} (m : List (String × α))
    {k k0 : String} (h : k0 ≠ k) :
    mapGet (mapDelete m k) k0 = mapGet m k0 := by
  induction m with
  | nil =>
    simp [mapDelete]
  | cons e rest ih =>
    by_cases h0 : e.1 = k
    · have h1 : ¬ k = k0 := fun hh => h hh.symm
      simp [mapDelete, h0, mapGet, h1]
    · simp only [mapDelete, if_neg h0]
      by_cases h1 : e.1 = k0
      · simp [mapGet, h1]
      · simp [mapGet, h1, ih]

/-! ## Claim C1: the win check on the spec's four-move scenario -/

/-- C1 counterexample: on the three-move log
`[(P1,"cat"), (P2,"dog"), (P1,"dog")]` the win check does NOT return
`null` — both implementations already report the win `"dog"`, because
`P1`'s most recent value (move 3) and `P2`'s most recent value (move 2)
are equal.  The claim asserts `checkForMatchingGuess` returns null on
this log. -/
theorem claim_C1_counterexample :
    checkForMatchingGuess exC1game3 = some dogWord ∧
    wmCheckForMatchingGuess exC1wm3 = some dogWord := by
  decide

/-- C1 amended: the engine detects the win `"dog"` already after the
third move of the scenario (and likewise on the four-move log), in both
the server's and the `WordMatchGame` implementation; consequently, in
live play the session is `COMPLETED` with winning word `"dog"` right
after the third `makeGuess`, and the fourth guess is rejected. -/
theorem claim_C1_amended :
    checkForMatchingGuess exC1game3 = some dogWord ∧
    checkForMatchingGuess exC1game4 = some dogWord ∧
    wmCheckForMatchingGuess exC1wm3 = some dogWord ∧
    wmCheckForMatchingGuess exC1wm4 = some dogWord ∧
    (let r1 := makeGuess exStatePlaying "s1" ['c', 'a', 't'] "m1" 0
     let r2 := makeGuess r1.state "s2" dogWord "m2" 1
     let r3 := makeGuess r2.state "s1" dogWord "m3" 2
     let r4 := makeGuess r3.state "s2" dogWord "m4" 3
     (mapGet r3.state.games "g1").map
        (fun g => (g.status, g.winningWord)) =
          some (GameStatus.COMPLETED, some dogWord) ∧
     r4.ack = false) := by
  refine ⟨by decide, by decide, by decide, by decide, by decide, by decide⟩

/-! ## Claim C2 counterexample: the win check ignores the roster -/

/-- C2 counterexample: with current roster `{p1, p2}` and a guess log
holding `"dog"` by `p1` and `"dog"` by the departed player `p3`, both
win-check implementations report the win `"dog"` even though the current
roster player `p2` has contributed no move and the deciding most-recent
guess belongs to `p3`, who is not in the roster. -/
theorem claim_C2_counterexample :
    checkForMatchingGuess exC2game = some dogWord ∧
    wmCheckForMatchingGuess exC2wm = some dogWord ∧
    exC2game.players.map (fun p => p.id) = ["p1", "p2"] ∧
    exC2wm.players.map (fun e => e.1) = ["p1", "p2"] ∧
    exC2game.guesses.map (fun gu => gu.playerId) = ["p1", "p3"] ∧
    exC2wm.guesses.map (fun gu => gu.playerId) = ["p1", "p3"] ∧
    ¬ "p2" ∈ exC2game.guesses.map (fun gu => gu.playerId) ∧
    ¬ "p3" ∈ exC2game.players.map (fun p => p.id) := by
  refine ⟨by decide, by decide, by decide, by decide, by decide,
    by decide, by decide, by decide⟩

/-! ## Claim C3 counterexample: disconnect removes the player -/

/-- C3 counterexample: in the two-player session in phase
`SETTING_WORDS`, handling the transport disconnect of `p2`'s socket
removes `p2` from the roster (only `p1` remains) and changes the phase
to `WAITING` — the claim asserts the player stays in the roster and the
phase is unchanged. -/
theorem claim_C3_counterexample :
    (mapGet (handleDisconnect exStateSettingWords "s2").games "g1").map
        (fun g => (g.players.map (fun p => p.id), g.status)) =
      some (["p1"], GameStatus.WAITING) ∧
    exGameSettingWords.players.map (fun p => p.id) = ["p1", "p2"] ∧
    exGameSettingWords.status = GameStatus.SETTING_WORDS ∧
    GameStatus.WAITING ≠ GameStatus.SETTING_WORDS := by
  refine ⟨by decide, by decide, by decide, by decide⟩

/-! ## Claim C4 counterexample: leave regresses the phase -/

/-- C4 counterexample: an explicit `leaveGame` from the two-player
session in phase `SETTING_WORDS` moves the surviving session back to
`WAITING`, a strictly earlier phase — refuting monotonicity for the
`leave` (and by identical code, `disconnect`) operation. -/
theorem claim_C4_counterexample :
    (mapGet (leaveGame exStateSettingWords "s2").games "g1").map
        (fun g => g.status) = some GameStatus.WAITING ∧
    exGameSettingWords.status = GameStatus.SETTING_WORDS ∧
    statusRank GameStatus.WAITING < statusRank GameStatus.SETTING_WORDS := by
  refine ⟨by decide, by decide, by decide⟩

/-! ## Claim C5 counterexample: the broadcast state is not redacted -/

/-- C5 counterexample: the `gameState` payload broadcast by the
`makeGuess` handler carries the players' raw secret words (`"apple"`,
`"zebra"`), not the `'[hidden]'` placeholder — the handler emits the raw
in-memory `Game` object, never `getPublicGameState()`. -/
theorem claim_C5_counterexample :
    ((makeGuess exStatePlaying "s1" dogWord "m1" 0).broadcastGameState).map
        (fun g => g.players.map (fun p => p.secretWord)) =
      some [['a', 'p', 'p', 'l', 'e'], ['z', 'e', 'b', 'r', 'a']] ∧
    (makeGuess exStatePlaying "s1" dogWord "m1" 0).ack = true ∧
    ¬ (['a', 'p', 'p', 'l', 'e'] : Word) = hiddenWord ∧
    ¬ (['a', 'p', 'p', 'l', 'e'] : Word) = [] := by
  refine ⟨by decide, by decide, by decide, by decide⟩

/-! ## Claim C6 counterexample: `processMove` ignores the phase -/

/-- C6 counterexample: `WordMatchGame.processMove` never checks the
phase: on a session in the terminal `COMPLETED` phase, a valid move by a
roster player is appended to the move log (length 0 becomes 1) instead
of being rejected as a no-op. -/
theorem claim_C6_counterexample :
    exC6wm.status = WMStatus.COMPLETED ∧
    exC6wm.guesses.length = 0 ∧
    (wmProcessMove exC6wm "p1" (some dogWord) "id1").1.guesses.length
      = 1 := by
  refine ⟨by decide, by decide, by decide⟩

/-! ## Branch characterizations of the socket handlers -/

theorem makeGuess_not_bound (st : ServerState) (sock : String)
    (word : Word) (guessId : String) (ts : Nat)
    (h : mapGet st.playerToGame sock = none) :
    makeGuess st sock word guessId ts =
      { state := st, ack := false, broadcastGameState := none } := by
  simp [makeGuess, h]

theorem makeGuess_no_game (st : ServerState) (sock gameId : String)
    (word : Word) (guessId : String) (ts : Nat)
    (h1 : mapGet st.playerToGame sock = some gameId)
    (h2 : mapGet st.games gameId = none) :
    makeGuess st sock word guessId ts =
      { state := st, ack := false, broadcastGameState := none } := by
  simp [makeGuess, h1, h2]

theorem makeGuess_not_playing (st : ServerState) (sock gameId : String)
    (game : Game) (word : Word) (guessId : String) (ts : Nat)
    (h1 : mapGet st.playerToGame sock = some gameId)
    (h2 : mapGet st.games gameId = some game)
    (h3 : game.status ≠ .PLAYING) :
    makeGuess st sock word guessId ts =
      { state := st, ack := false, broadcastGameState := none } := by
  simp [makeGuess, h1, h2, h3]

theorem makeGuess_no_player (st : ServerState) (sock gameId : String)
    (game : Game) (word : Word) (guessId : String) (ts : Nat)
    (h1 : mapGet st.playerToGame sock = some gameId)
    (h2 : mapGet st.games gameId = some game)
    (h3 : game.players.find? (fun p => p.socketId = sock) = none) :
    makeGuess st sock word guessId ts =
      { state := st, ack := false, broadcastGameState := none } := by
  by_cases h : game.status = GameStatus.PLAYING
  · simp [makeGuess, h1, h2, h, h3]
  · simp [makeGuess, h1, h2, h]

theorem makeGuess_accepted (st : ServerState) (sock gameId : String)
    (game : Game) (player : Player) (word : Word) (guessId : String)
    (ts : Nat)
    (h1 : mapGet st.playerToGame sock = some gameId)
    (h2 : mapGet st.games gameId = some game)
    (h3 : game.status = .PLAYING)
    (h4 : game.players.find? (fun p => p.socketId = sock) = some player) :
    (makeGuess st sock word guessId ts).state.games =
      mapSet st.games gameId
        (makeGuessResultGame game player word guessId ts) ∧
    (makeGuess st sock word guessId ts).state.playerToGame =
      st.playerToGame ∧
    (makeGuess st sock word guessId ts).ack = true ∧
    (makeGuess st sock word guessId ts).broadcastGameState =
      some (makeGuessResultGame game player word guessId ts) := by
  refine ⟨?_, ?_, ?_, ?_⟩ <;> simp [makeGuess, h1, h2, h3, h4]

theorem joinGame_reconnect (st : ServerState)
    (sock gameId playerName newPlayerId : String) (game : Game)
    (h1 : mapGet st.playerToGame sock = some gameId)
    (h2 : mapGet st.games gameId = some game) :
    joinGame st sock gameId playerName newPlayerId = (st, true) := by
  simp [joinGame, h1, h2]

theorem joinGame_rejected (st : ServerState)
    (sock gameId playerName newPlayerId : String) (game : Game)
    (h1 : ¬ mapGet st.playerToGame sock = some gameId)
    (h2 : mapGet st.games gameId = some game)
    (h3 : 2 ≤ game.players.length ∨ game.status ≠ .WAITING) :
    joinGame st sock gameId playerName newPlayerId = (st, false) := by
  simp [joinGame, h1, h2, h3]

theorem joinGame_accepted (st : ServerState)
    (sock gameId playerName newPlayerId : String) (game : Game)
    (h1 : ¬ mapGet st.playerToGame sock = some gameId)
    (h2 : mapGet st.games gameId = some game)
    (h3 : game.players.length < 2) (h4 : game.status = .WAITING) :
    joinGame st sock gameId playerName newPlayerId =
      ({ games := mapSet st.games gameId
           (joinedGame game sock playerName newPlayerId),
         playerToGame := mapSet st.playerToGame sock gameId }, true) := by
  have h5 : ¬ (2 ≤ game.players.length ∨ game.status ≠ GameStatus.WAITING) := by
    push_neg
    exact ⟨by omega, h4⟩
  simp [joinGame, h1, h2, h5]

theorem wmProcessMove_invalid (g : WMGame) (pid guessId : String) :
    wmProcessMove g pid none guessId = (g, false) := by
  simp [wmProcessMove]

theorem wmProcessMove_no_player (g : WMGame) (pid guessId : String)
    (md : Option Word) (h : mapGet g.players pid = none) :
    wmProcessMove g pid md guessId = (g, false) := by
  cases md with
  | none => simp [wmProcessMove]
  | some w => simp [wmProcessMove, h]

/-! ## Claim C6: move rejection paths -/

/-- C6 amended: the server-level `makeGuess` handler is a rejected no-op
(unchanged state, failure acknowledgement, no broadcast) whenever the
socket is unbound, the bound game does not exist, the session phase is
not `PLAYING`, or the socket has no player in the roster; and
`WordMatchGame.processMove` is a rejected no-op (`isGameOver: false`,
unchanged game) for an invalid move payload or an unknown playerId —
but, unlike the handler, `processMove` itself performs no phase check
(see the counterexample). -/
theorem claim_C6_amended :
    (∀ (st : ServerState) (sock : String) (word : Word)
        (guessId : String) (ts : Nat),
        mapGet st.playerToGame sock = none →
        makeGuess st sock word guessId ts =
          { state := st, ack := false, broadcastGameState := none }) ∧
    (∀ (st : ServerState) (sock gameId : String) (word : Word)
        (guessId : String) (ts : Nat),
        mapGet st.playerToGame sock = some gameId →
        mapGet st.games gameId = none →
        makeGuess st sock word guessId ts =
          { state := st, ack := false, broadcastGameState := none }) ∧
    (∀ (st : ServerState) (sock gameId : String) (game : Game)
        (word : Word) (guessId : String) (ts : Nat),
        mapGet st.playerToGame sock = some gameId →
        mapGet st.games gameId = some game →
        game.status ≠ .PLAYING →
        makeGuess st sock word guessId ts =
          { state := st, ack := false, broadcastGameState := none }) ∧
    (∀ (st : ServerState) (sock gameId : String) (game : Game)
        (word : Word) (guessId : String) (ts : Nat),
        mapGet st.playerToGame sock = some gameId →
        mapGet st.games gameId = some game →
        game.players.find? (fun p => p.socketId = sock) = none →
        makeGuess st sock word guessId ts =
          { state := st, ack := false, broadcastGameState := none }) ∧
    (∀ (g : WMGame) (pid guessId : String),
        wmProcessMove g pid none guessId = (g, false)) ∧
    (∀ (g : WMGame) (pid guessId : String) (md : Option Word),
        mapGet g.players pid = none →
        wmProcessMove g pid md guessId = (g, false)) := by
  refine ⟨?_, ?_, ?_, ?_, ?_, ?_⟩
  · intro st sock word guessId ts h
    exact makeGuess_not_bound st sock word guessId ts h
  · intro st sock gameId word guessId ts h1 h2
    exact makeGuess_no_game st sock gameId word guessId ts h1 h2
  · intro st sock gameId game word guessId ts h1 h2 h3
    exact makeGuess_not_playing st sock gameId game word guessId ts h1 h2 h3
  · intro st sock gameId game word guessId ts h1 h2 h3
    exact makeGuess_no_player st sock gameId game word guessId ts h1 h2 h3
  · intro g pid guessId
    exact wmProcessMove_invalid g pid guessId
  · intro g pid guessId md h
    exact wmProcessMove_no_player g pid guessId md h

/-- C6 witness: the rejection paths evaluated at concrete inputs — a
guess from `s1` while the session is in `SETTING_WORDS` is a rejected
no-op, a guess from an unbound socket is a rejected no-op, and
`processMove` rejects an unknown player and an invalid payload. -/
theorem claim_C6_witness :
    makeGuess exStateSettingWords "s1" dogWord "m1" 0 =
      { state := exStateSettingWords, ack := false,
        broadcastGameState := none } ∧
    makeGuess exStatePlaying "s9" dogWord "m1" 0 =
      { state := exStatePlaying, ack := false,
        broadcastGameState := none } ∧
    wmProcessMove exC6wm "p9" (some dogWord) "i1" = (exC6wm, false) ∧
    wmProcessMove exC6wm "p1" none "i1" = (exC6wm, false) := by
  refine ⟨?_, ?_, ?_, ?_⟩
  · exact claim_C6_amended.2.2.1 exStateSettingWords "s1" "g1"
      exGameSettingWords dogWord "m1" 0 (by decide) (by decide) (by decide)
  · exact claim_C6_amended.1 exStatePlaying "s9" dogWord "m1" 0 (by decide)
  · exact claim_C6_amended.2.2.2.2.2 exC6wm "p9" "i1" (some dogWord)
      (by decide)
  · exact claim_C6_amended.2.2.2.2.1 exC6wm "p1" "i1"

/-! ## Claim C9: idempotent join -/

/-- C9: joining again with the same identity is a roster no-op returning
success: a socket already bound to an existing session gets `(st, true)`
from `joinGame` with the state unchanged, and `WordMatchGame.addPlayer`
leaves the whole game state unchanged when the playerId is already in
the roster. -/
theorem claim_C9 :
    (∀ (st : ServerState) (sock gameId playerName newPlayerId : String)
        (game : Game),
        mapGet st.playerToGame sock = some gameId →
        mapGet st.games gameId = some game →
        joinGame st sock gameId playerName newPlayerId = (st, true)) ∧
    (∀ (g : WMGame) (playerId playerName : String) (isHost : Bool),
        (mapGet g.players playerId).isSome →
        wmAddPlayer g playerId playerName isHost = g) := by
  constructor
  · intro st sock gameId playerName newPlayerId game h1 h2
    exact joinGame_reconnect st sock gameId playerName newPlayerId game h1 h2
  · intro g playerId playerName isHost h
    simp [wmAddPlayer, h]

/-- C9 witness: a second join of the bound socket `s1` into the full
game `g1` acknowledges success and changes nothing, and re-adding the
roster player `p1` to the `WordMatchGame` instance changes nothing. -/
theorem claim_C9_witness :
    joinGame exStatePlaying "s1" "g1" "Alice" "p9" =
      (exStatePlaying, true) ∧
    wmAddPlayer exC6wm "p1" "p1" false = exC6wm := by
  constructor
  · exact claim_C9.1 exStatePlaying "s1" "g1" "Alice" "p9" exGamePlaying
      (by decide) (by decide)
  · exact claim_C9.2 exC6wm "p1" "p1" false (by decide)

/-! ## Structural lemmas for the removal and mutation paths -/

theorem length_updateFirst {α : Type} (p : α → Bool) (f : α → α)
    (l : List α) : (updateFirst p f l).length = l.length := by
  induction l with
  | nil => rfl
  | cons x xs ih =>
    by_cases h : p x
    · simp [updateFirst, h]
    · simp [updateFirst, h, ih]

theorem findIdx?_bounds {α : Type} (p : α → Bool) :
    ∀ (l : List α) (s i : Nat), List.findIdx? p l s = some i →
      s ≤ i ∧ i < s + l.length := by
  intro l
  induction l with
  | nil =>
    intro s i h
    simp [List.findIdx?] at h
  | cons x xs ih =>
    intro s i h
    rw [List.findIdx?_cons] at h
    by_cases hp : p x = true
    · rw [if_pos hp] at h
      have hi : s = i := Option.some.inj h
      subst hi
      simp
    · rw [if_neg hp] at h
      have h2 := ih (s + 1) i h
      constructor
      · omega
      · simp only [List.length_cons]
        omega

theorem findIdx?_lt_length {α : Type} (p : α → Bool) (l : List α)
    (i : Nat) (h : List.findIdx? p l = some i) : i < l.length := by
  have h2 := findIdx?_bounds p l 0 i h
  omega

theorem handleDisconnect_eq_leaveGame (st : ServerState) (sock : String) :
    handleDisconnect st sock = leaveGame st sock := rfl

/-- Either `joinGame` leaves the state untouched, or it was an accepted
join of a waiting, not-full game and the state is the accepted-join
update. -/
theorem joinGame_state_cases (st : ServerState)
    (sock gameId playerName newPlayerId : String) :
    (joinGame st sock gameId playerName newPlayerId).1 = st ∨
    ∃ game, mapGet st.games gameId = some game ∧
      game.players.length < 2 ∧ game.status = .WAITING ∧
      (joinGame st sock gameId playerName newPlayerId).1 =
        { games := mapSet st.games gameId
            (joinedGame game sock playerName newPlayerId),
          playerToGame := mapSet st.playerToGame sock gameId } := by
  by_cases hc : mapGet st.playerToGame sock = some gameId ∧
      (mapGet st.games gameId).isSome
  · left
    simp [joinGame, hc]
  · cases hG : mapGet st.games gameId with
    | none =>
      left
      simp [joinGame, hc, hG]
    | some game =>
      have hb : ¬ mapGet st.playerToGame sock = some gameId :=
        fun hbind => hc ⟨hbind, by rw [hG]; rfl⟩
      by_cases hful : 2 ≤ game.players.length ∨ game.status ≠ .WAITING
      · left
        simp [joinGame, hb, hG, hful]
      · right
        push_neg at hful
        refine ⟨game, rfl, by omega, hful.2, ?_⟩
        have hful2 : ¬ (2 ≤ game.players.length ∨
            game.status ≠ GameStatus.WAITING) := by
          push_neg
          exact hful
        simp [joinGame, hb, hG, hful2]

/-- Either `setSecretWord` leaves the state untouched, or the bound game
exists with a player on the socket and the state carries the updated
game. -/
theorem setSecretWord_state_cases (st : ServerState) (sock : String)
    (word : Word) :
    (setSecretWord st sock word).1 = st ∨
    ∃ gameId game, mapGet st.playerToGame sock = some gameId ∧
      mapGet st.games gameId = some game ∧
      (setSecretWord st sock word).1.games =
        mapSet st.games gameId (setWordGame game sock word) ∧
      (setSecretWord st sock word).1.playerToGame = st.playerToGame := by
  cases hb : mapGet st.playerToGame sock with
  | none =>
    left
    simp [setSecretWord, hb]
  | some gameId =>
    cases hG : mapGet st.games gameId with
    | none =>
      left
      simp [setSecretWord, hb, hG]
    | some game =>
      by_cases hf : (game.players.find? (fun p => p.socketId = sock)).isSome
      · right
        refine ⟨gameId, game, rfl, hG, ?_, ?_⟩ <;>
          simp [setSecretWord, hb, hG, hf]
      · left
        simp [setSecretWord, hb, hG, hf]

/-- Either `makeGuess` leaves the state untouched, or the bound game was
in `PLAYING` with a player on the socket and the state carries the
updated game. -/
theorem makeGuess_state_cases (st : ServerState) (sock : String)
    (word : Word) (guessId : String) (ts : Nat) :
    (makeGuess st sock word guessId ts).state = st ∨
    ∃ gameId game player, mapGet st.playerToGame sock = some gameId ∧
      mapGet st.games gameId = some game ∧ game.status = .PLAYING ∧
      game.players.find? (fun p => p.socketId = sock) = some player ∧
      (makeGuess st sock word guessId ts).state.games =
        mapSet st.games gameId
          (makeGuessResultGame game player word guessId ts) ∧
      (makeGuess st sock word guessId ts).state.playerToGame =
        st.playerToGame := by
  cases hb : mapGet st.playerToGame sock with
  | none =>
    left
    simp [makeGuess, hb]
  | some gameId =>
    cases hG : mapGet st.games gameId with
    | none =>
      left
      simp [makeGuess, hb, hG]
    | some game =>
      by_cases hs : game.status = GameStatus.PLAYING
      · cases hf : game.players.find? (fun p => p.socketId = sock) with
        | none =>
          left
          simp [makeGuess, hb, hG, hs, hf]
        | some player =>
          right
          refine ⟨gameId, game, player, rfl, hG, hs, hf, ?_, ?_⟩ <;>
            simp [makeGuess, hb, hG, hs, hf]
      · left
        simp [makeGuess, hb, hG, hs]

/-- Every game entry surviving `leaveGame` descends from an entry of the
previous state with the same key: it is either untouched, or it lost
exactly one roster player and its status either was kept (`COMPLETED`)
or was reset to `WAITING`. -/
theorem leaveGame_games_mem (st : ServerState) (sock : String) :
    ∀ e ∈ (leaveGame st sock).games, ∃ e0 ∈ st.games, e.1 = e0.1 ∧
      (e.2 = e0.2 ∨
        (e.2.players.length + 1 = e0.2.players.length ∧
          (e.2.status = e0.2.status ∨ e.2.status = .WAITING))) := by
  intro e he
  cases hb : mapGet st.playerToGame sock with
  | none =>
    rw [leaveGame, hb] at he
    exact ⟨e, he, rfl, Or.inl rfl⟩
  | some gameId =>
    cases hG : mapGet st.games gameId with
    | none =>
      rw [leaveGame, hb] at he
      simp only [hG] at he
      exact ⟨e, he, rfl, Or.inl rfl⟩
    | some game =>
      cases hf : game.players.findIdx? (fun p : Player => p.socketId = sock) with
      | none =>
        rw [leaveGame, hb] at he
        simp only [hG, hf] at he
        exact ⟨e, he, rfl, Or.inl rfl⟩
      | some i =>
        rw [leaveGame, hb] at he
        simp only [hG, hf] at he
        by_cases hz : (game.players.eraseIdx i).length = 0
        · simp only [hz, if_pos rfl] at he
          exact ⟨e, mem_mapDelete he, rfl, Or.inl rfl⟩
        · simp only [if_neg hz] at he
          rcases mem_mapSet he with h | h
          · exact ⟨e, h, rfl, Or.inl rfl⟩
          · have hmem : (gameId, game) ∈ st.games := mapGet_mem hG
            refine ⟨(gameId, game), hmem, by rw [h], Or.inr ⟨?_, ?_⟩⟩
            · have hi : i < game.players.length :=
                findIdx?_lt_length _ _ _ hf
              have hlen : (game.players.eraseIdx i).length =
                  game.players.length - 1 := by
                rw [List.length_eraseIdx, if_pos hi]
              rw [h]
              cases hP : game.players.eraseIdx i with
              | nil => exact absurd (by rw [hP]; rfl) hz
              | cons p rest =>
                simp only [hP]
                simp only [hP, List.length_cons] at hlen
                simp only [List.length_cons]
                omega
            · rw [h]
              by_cases hcs : game.status = GameStatus.COMPLETED
              · left
                simp [hcs]
              · right
                simp [hcs]

theorem statusRank_le_three (s : GameStatus) : statusRank s ≤ 3 := by
  cases s <;> decide

theorem joinedGame_players_length (game : Game)
    (sock playerName newPlayerId : String) :
    (joinedGame game sock playerName newPlayerId).players.length =
      game.players.length + 1 := by
  simp [joinedGame]

theorem setWordGame_players_length (game : Game) (sock : String)
    (word : Word) :
    (setWordGame game sock word).players.length =
      game.players.length := by
  simp [setWordGame, length_updateFirst]

theorem makeGuessResultGame_players (game : Game) (player : Player)
    (word : Word) (guessId : String) (ts : Nat) :
    (makeGuessResultGame game player word guessId ts).players =
      game.players := by
  rw [makeGuessResultGame]
  cases hc : checkForMatchingGuess { game with guesses :=
      game.guesses ++ [appendedGuess player word guessId ts] } <;>
    simp [hc]

theorem statusRank_setWordGame (game : Game) (sock : String)
    (word : Word) :
    statusRank game.status ≤
      statusRank (setWordGame game sock word).status := by
  simp only [setWordGame]
  split
  · next h =>
    rw [h.2]
    decide
  · exact Nat.le_refl _

theorem statusRank_makeGuessResultGame (game : Game) (player : Player)
    (word : Word) (guessId : String) (ts : Nat) :
    statusRank game.status ≤
      statusRank (makeGuessResultGame game player word guessId ts).status := by
  rw [makeGuessResultGame]
  cases hc : checkForMatchingGuess { game with guesses :=
      game.guesses ++ [appendedGuess player word guessId ts] }
  · simp [hc]
  · simp only [hc]
    exact statusRank_le_three game.status

/-! ## Roster capacity invariant -/

theorem rosterInv_stepOp (st : ServerState) (op : SOp)
    (h : RosterInv st) : RosterInv (stepOp st op) := by
  cases op with
  | create sock gameId playerName title newPlayerId =>
    intro e he
    simp only [stepOp, createGame] at he
    rcases mem_mapSet he with h1 | h1
    · exact h e h1
    · rw [h1]
      simp
  | join sock gameId playerName newPlayerId =>
    rcases joinGame_state_cases st sock gameId playerName newPlayerId
      with heq | ⟨game, hG, hlen, _, heq⟩
    · simp only [stepOp, heq]
      exact h
    · intro e he
      simp only [stepOp, heq] at he
      rcases mem_mapSet he with h1 | h1
      · exact h e h1
      · rw [h1]
        simp only [joinedGame_players_length]
        omega
  | setWord sock word =>
    rcases setSecretWord_state_cases st sock word
      with heq | ⟨gameId, game, _, hG, heq, _⟩
    · simp only [stepOp, heq]
      exact h
    · intro e he
      simp only [stepOp, heq] at he
      rcases mem_mapSet he with h1 | h1
      · exact h e h1
      · rw [h1]
        simp only [setWordGame_players_length]
        exact h (gameId, game) (mapGet_mem hG)
  | guess sock word guessId ts =>
    rcases makeGuess_state_cases st sock word guessId ts
      with heq | ⟨gameId, game, player, _, hG, _, _, heq, _⟩
    · simp only [stepOp, heq]
      exact h
    · intro e he
      simp only [stepOp, heq] at he
      rcases mem_mapSet he with h1 | h1
      · exact h e h1
      · rw [h1]
        simp only [makeGuessResultGame_players]
        exact h (gameId, game) (mapGet_mem hG)
  | leave sock =>
    intro e he
    rcases leaveGame_games_mem st sock e he with ⟨e0, he0, _, hrel⟩
    rcases hrel with h1 | ⟨h1, _⟩
    · rw [h1]
      exact h e0 he0
    · have h2 := h e0 he0
      omega
  | dropConn sock =>
    intro e he
    rw [stepOp, handleDisconnect_eq_leaveGame] at he
    rcases leaveGame_games_mem st sock e he with ⟨e0, he0, _, hrel⟩
    rcases hrel with h1 | ⟨h1, _⟩
    · rw [h1]
      exact h e0 he0
    · have h2 := h e0 he0
      omega

theorem rosterInv_runOps (ops : List SOp) : RosterInv (runOps ops) := by
  have haux : ∀ (l : List SOp) (st : ServerState), RosterInv st →
      RosterInv (l.foldl stepOp st) := by
    intro l
    induction l with
    | nil =>
      intro st h
      exact h
    | cons op rest ih =>
      intro st h
      exact ih (stepOp st op) (rosterInv_stepOp st op h)
  exact haux ops initialState (by intro e he; simp [initialState] at he)

/-! ## Claim C7: capacity enforcement -/

/-- C7: `joinGame` on a session whose roster already holds `maxPlayers`
(two) players acknowledges failure and leaves the state unchanged (for
any connection not already inside that session, whose second join is the
reconnect no-op of C9); moreover every reachable server state — and,
inductively, every state produced by any operation sequence — keeps
every roster at size at most two. -/
theorem claim_C7 :
    (∀ (st : ServerState) (sock gameId playerName newPlayerId : String)
        (game : Game),
        mapGet st.games gameId = some game →
        2 ≤ game.players.length →
        ¬ mapGet st.playerToGame sock = some gameId →
        joinGame st sock gameId playerName newPlayerId = (st, false)) ∧
    (∀ (st : ServerState) (op : SOp),
        RosterInv st → RosterInv (stepOp st op)) ∧
    (∀ ops : List SOp, RosterInv (runOps ops)) := by
  refine ⟨?_, ?_, ?_⟩
  · intro st sock gameId playerName newPlayerId game hG hfull hb
    exact joinGame_rejected st sock gameId playerName newPlayerId game
      hb hG (Or.inl hfull)
  · intro st op h
    exact rosterInv_stepOp st op h
  · intro ops
    exact rosterInv_runOps ops

/-- C7 witness: the fresh socket `s9` cannot join the full game `g1`
(failure, unchanged state), and the two-operation run
create-then-join respects the roster bound. -/
theorem claim_C7_witness :
    joinGame exStatePlaying "s9" "g1" "Zed" "p9" =
      (exStatePlaying, false) ∧
    RosterInv (runOps [SOp.create "s1" "g1" "Alice" "t" "p1",
      SOp.join "s2" "g1" "Bob" "p2"]) := by
  constructor
  · exact claim_C7.1 exStatePlaying "s9" "g1" "Zed" "p9" exGamePlaying
      (by decide) (by decide) (by decide)
  · exact claim_C7.2.2 [SOp.create "s1" "g1" "Alice" "t" "p1",
      SOp.join "s2" "g1" "Bob" "p2"]

/-! ## Claim C3: what disconnect actually does -/

/-- C3 amended: the disconnect handler performs exactly the same
in-memory player removal as `leaveGame` — it does NOT merely clear a
connection binding.  Whenever the disconnecting socket is bound to an
existing game holding a player for it and other players remain, the
surviving game has lost one roster player and its phase has been reset
to `WAITING` unless it was `COMPLETED`. -/
theorem claim_C3_amended :
    (∀ (st : ServerState) (sock : String),
        handleDisconnect st sock = leaveGame st sock) ∧
    (∀ (st : ServerState) (sock gameId : String) (game : Game) (i : Nat),
        mapGet st.playerToGame sock = some gameId →
        mapGet st.games gameId = some game →
        game.players.findIdx? (fun p : Player => p.socketId = sock)
          = some i →
        game.players.eraseIdx i ≠ [] →
        (mapGet (handleDisconnect st sock).games gameId).map
            (fun g => g.players.length) =
          some (game.players.length - 1) ∧
        (mapGet (handleDisconnect st sock).games gameId).map
            (fun g => g.status) =
          some (if game.status = .COMPLETED then GameStatus.COMPLETED
            else GameStatus.WAITING)) := by
  constructor
  · intro st sock
    exact handleDisconnect_eq_leaveGame st sock
  · intro st sock gameId game i hb hG hf hne
    have hz : ¬ (game.players.eraseIdx i).length = 0 := by
      intro hzz
      exact hne (List.length_eq_zero.mp hzz)
    have hi : i < game.players.length := findIdx?_lt_length _ _ _ hf
    have hlen : (game.players.eraseIdx i).length =
        game.players.length - 1 := by
      rw [List.length_eraseIdx, if_pos hi]
    rw [handleDisconnect_eq_leaveGame, leaveGame, hb]
    simp only [hG, hf, if_neg hz]
    cases hP : game.players.eraseIdx i with
    | nil => exact absurd hP hne
    | cons p rest =>
      simp only [hP]
      rw [mapGet_mapSet, if_pos rfl]
      simp only [hP, List.length_cons] at hlen
      constructor
      · simp only [Option.map_some', List.length_cons, Option.some.injEq]
        omega
      · by_cases hcs : game.status = GameStatus.COMPLETED
        · simp [hcs]
        · simp [hcs]

/-- C3 witness: disconnecting `p2`'s socket from the two-player
`SETTING_WORDS` session leaves a one-player roster in phase `WAITING`. -/
theorem claim_C3_witness :
    (mapGet (handleDisconnect exStateSettingWords "s2").games "g1").map
        (fun g => g.players.length) = some 1 ∧
    (mapGet (handleDisconnect exStateSettingWords "s2").games "g1").map
        (fun g => g.status) = some GameStatus.WAITING := by
  have h := claim_C3_amended.2 exStateSettingWords "s2" "g1"
    exGameSettingWords 1 (by decide) (by decide) (by decide) (by decide)
  exact h

/-! ## Claim C4: phase monotonicity -/

/-- C4 amended: the phase is monotone (in the order
`WAITING < SETTING_WORDS < PLAYING < COMPLETED`) under `joinGame`,
`setSecretWord` and `makeGuess`; but `leaveGame` and the identical
disconnect handler are NOT monotone — every game entry surviving them
keeps its status only when untouched or already `COMPLETED`, and is
otherwise reset to `WAITING` (the counterexample exhibits the
regression `SETTING_WORDS` to `WAITING`). -/
theorem claim_C4_amended :
    (∀ (st : ServerState) (sock gameId playerName newPlayerId : String),
        ∀ e ∈ (joinGame st sock gameId playerName newPlayerId).1.games,
          ∃ e0 ∈ st.games, e.1 = e0.1 ∧
            statusRank e0.2.status ≤ statusRank e.2.status) ∧
    (∀ (st : ServerState) (sock : String) (word : Word),
        ∀ e ∈ (setSecretWord st sock word).1.games,
          ∃ e0 ∈ st.games, e.1 = e0.1 ∧
            statusRank e0.2.status ≤ statusRank e.2.status) ∧
    (∀ (st : ServerState) (sock : String) (word : Word)
        (guessId : String) (ts : Nat),
        ∀ e ∈ (makeGuess st sock word guessId ts).state.games,
          ∃ e0 ∈ st.games, e.1 = e0.1 ∧
            statusRank e0.2.status ≤ statusRank e.2.status) ∧
    (∀ (st : ServerState) (sock : String),
        ∀ e ∈ (leaveGame st sock).games, ∃ e0 ∈ st.games, e.1 = e0.1 ∧
          (e.2.status = e0.2.status ∨ e.2.status = .WAITING)) ∧
    (∀ (st : ServerState) (sock : String),
        ∀ e ∈ (handleDisconnect st sock).games,
          ∃ e0 ∈ st.games, e.1 = e0.1 ∧
            (e.2.status = e0.2.status ∨ e.2.status = .WAITING)) := by
  refine ⟨?_, ?_, ?_, ?_, ?_⟩
  · intro st sock gameId playerName newPlayerId e he
    rcases joinGame_state_cases st sock gameId playerName newPlayerId
      with heq | ⟨game, hG, _, hstat, heq⟩
    · rw [heq] at he
      exact ⟨e, he, rfl, Nat.le_refl _⟩
    · rw [heq] at he
      rcases mem_mapSet he with h1 | h1
      · exact ⟨e, h1, rfl, Nat.le_refl _⟩
      · refine ⟨(gameId, game), mapGet_mem hG, by rw [h1], ?_⟩
        rw [h1]
        simp only [hstat]
        exact Nat.zero_le _
  · intro st sock word e he
    rcases setSecretWord_state_cases st sock word
      with heq | ⟨gameId, game, _, hG, heq, _⟩
    · rw [heq] at he
      exact ⟨e, he, rfl, Nat.le_refl _⟩
    · rw [heq] at he
      rcases mem_mapSet he with h1 | h1
      · exact ⟨e, h1, rfl, Nat.le_refl _⟩
      · refine ⟨(gameId, game), mapGet_mem hG, by rw [h1], ?_⟩
        rw [h1]
        exact statusRank_setWordGame game sock word
  · intro st sock word guessId ts e he
    rcases makeGuess_state_cases st sock word guessId ts
      with heq | ⟨gameId, game, player, _, hG, _, _, heq, _⟩
    · rw [heq] at he
      exact ⟨e, he, rfl, Nat.le_refl _⟩
    · rw [heq] at he
      rcases mem_mapSet he with h1 | h1
      · exact ⟨e, h1, rfl, Nat.le_refl _⟩
      · refine ⟨(gameId, game), mapGet_mem hG, by rw [h1], ?_⟩
        rw [h1]
        exact statusRank_makeGuessResultGame game player word guessId ts
  · intro st sock e he
    rcases leaveGame_games_mem st sock e he with ⟨e0, he0, hk, hrel⟩
    rcases hrel with h1 | ⟨_, h2⟩
    · exact ⟨e0, he0, hk, Or.inl (by rw [h1])⟩
    · exact ⟨e0, he0, hk, h2⟩
  · intro st sock e he
    rw [handleDisconnect_eq_leaveGame] at he
    rcases leaveGame_games_mem st sock e he with ⟨e0, he0, hk, hrel⟩
    rcases hrel with h1 | ⟨_, h2⟩
    · exact ⟨e0, he0, hk, Or.inl (by rw [h1])⟩
    · exact ⟨e0, he0, hk, h2⟩

/-- C4 witness: the monotonicity part applied to the accepted
`setSecretWord` of `s1` on the `SETTING_WORDS` session, for the updated
`g1` entry of the resulting state. -/
theorem claim_C4_witness :
    ∃ e0 ∈ exStateSettingWords.games,
      ("g1", setWordGame exGameSettingWords "s1" ['c', 'a', 't']).1
        = e0.1 ∧
      statusRank e0.2.status ≤ statusRank
        ("g1", setWordGame exGameSettingWords "s1" ['c', 'a', 't']).2.status := by
  exact claim_C4_amended.2.1 exStateSettingWords "s1" ['c', 'a', 't']
    ("g1", setWordGame exGameSettingWords "s1" ['c', 'a', 't'])
    (by decide)

/-! ## Claim C5: redaction versus raw broadcast -/

/-- C5 amended: `WordMatchGame.getPublicGameState` does redact — every
player view it produces carries either the `'[hidden]'` placeholder or
the empty string, one view per roster player.  The `server.ts` handlers,
however, do not broadcast this redacted snapshot: whatever `gameState`
payload `makeGuess` emits to the room is the raw stored game, whose
player list (secret words included) is carried over verbatim. -/
theorem claim_C5_amended :
    (∀ (g : WMGame), ∀ v ∈ wmPublicPlayerViews g,
        v.secretWord = hiddenWord ∨ v.secretWord = []) ∧
    (∀ (g : WMGame),
        (wmPublicPlayerViews g).length = g.players.length) ∧
    (∀ (st : ServerState) (sock : String) (word : Word)
        (guessId : String) (ts : Nat) (bg : Game),
        (makeGuess st sock word guessId ts).broadcastGameState = some bg →
        ∃ gameId game player,
          mapGet st.playerToGame sock = some gameId ∧
          mapGet st.games gameId = some game ∧
          game.players.find? (fun p => p.socketId = sock) = some player ∧
          bg.players = game.players) := by
  refine ⟨?_, ?_, ?_⟩
  · intro g v hv
    obtain ⟨p, _, rfl⟩ := List.mem_map.mp hv
    by_cases h : p.secretWord ≠ []
    · left
      simp [h]
    · right
      simp [h]
  · intro g
    simp [wmPublicPlayerViews, wmPlayerViews]
  · intro st sock word guessId ts bg h
    cases hb : mapGet st.playerToGame sock with
    | none =>
      rw [makeGuess_not_bound st sock word guessId ts hb] at h
      exact absurd h (by simp)
    | some gameId =>
      cases hG : mapGet st.games gameId with
      | none =>
        rw [makeGuess_no_game st sock gameId word guessId ts hb hG] at h
        exact absurd h (by simp)
      | some game =>
        by_cases hs : game.status = GameStatus.PLAYING
        · cases hf : game.players.find? (fun p => p.socketId = sock) with
          | none =>
            rw [makeGuess_no_player st sock gameId game word guessId ts
              hb hG hf] at h
            exact absurd h (by simp)
          | some player =>
            have h4 := (makeGuess_accepted st sock gameId game player
              word guessId ts hb hG hs hf).2.2.2
            rw [h4] at h
            have hbg : makeGuessResultGame game player word guessId ts
                = bg := Option.some.inj h
            exact ⟨gameId, game, player, rfl, hG, hf,
              by rw [← hbg]; exact makeGuessResultGame_players _ _ _ _ _⟩
        · rw [makeGuess_not_playing st sock gameId game word guessId ts
            hb hG hs] at h
          exact absurd h (by simp)

/-- C5 witness: the single public view of the game whose player has the
secret `"apple"` is masked, and the concrete broadcast of an accepted
guess carries the raw player list of the stored game. -/
theorem claim_C5_witness :
    (exMaskedView.secretWord = hiddenWord ∨
      exMaskedView.secretWord = []) ∧
    (∃ gameId game player,
      mapGet exStatePlaying.playerToGame "s1" = some gameId ∧
      mapGet exStatePlaying.games gameId = some game ∧
      game.players.find? (fun p => p.socketId = "s1") = some player ∧
      (makeGuessResultGame exGamePlaying exP1 dogWord "m1" 0).players =
        game.players) := by
  constructor
  · exact claim_C5_amended.1 exWmSecretGame exMaskedView (by decide)
  · exact claim_C5_amended.2.2 exStatePlaying "s1" dogWord "m1" 0
      (makeGuessResultGame exGamePlaying exP1 dogWord "m1" 0) (by decide)

/-! ## The write-behind queue under a failing persistence layer -/

theorem insertSorted_perm {α : Type} (le : α → α → Bool) (x : α)
    (l : List α) : (insertSorted le x l).Perm (x :: l) := by
  induction l with
  | nil => exact List.Perm.refl _
  | cons h t ih =>
    by_cases hle : le x h
    · simp only [insertSorted, if_pos hle]
      exact List.Perm.refl _
    · simp only [insertSorted, if_neg hle]
      exact (ih.cons h).trans (List.Perm.swap x h t)

theorem stableSort_perm {α : Type} (le : α → α → Bool) (l : List α) :
    (stableSort le l).Perm l := by
  induction l with
  | nil => exact List.Perm.refl _
  | cons x t ih =>
    exact (insertSorted_perm le x (stableSort le t)).trans (ih.cons x)

theorem opWeight_pos (op : DbOperation) : 1 ≤ opWeight op :=
  Nat.le_add_right 1 _

theorem drainStepFail_games (s : QueueState) :
    (drainStepFail s).games = s.games := by
  rw [drainStepFail]
  split <;> rfl

theorem requeued_weight_le (batch : List DbOperation) :
    ((batch.filterMap (fun op =>
        if op.retryCount < MAX_RETRIES then
          some { op with retryCount := op.retryCount + 1 }
        else none)).map opWeight).sum + batch.length ≤
      (batch.map opWeight).sum := by
  induction batch with
  | nil => simp
  | cons op rest ih =>
    by_cases h : op.retryCount < MAX_RETRIES
    · simp only [List.filterMap_cons, if_pos h, List.map_cons,
        List.length_cons, List.sum_cons]
      have h1 : opWeight { op with retryCount := op.retryCount + 1 } + 1
          = opWeight op := by
        simp only [MAX_RETRIES] at h
        simp only [opWeight, MAX_RETRIES]
        omega
      omega
    · simp only [List.filterMap_cons, if_neg h, List.map_cons,
        List.length_cons, List.sum_cons]
      have h1 := opWeight_pos op
      omega

theorem queueMeasure_drainStepFail (s : QueueState)
    (h : s.queue ≠ []) :
    queueMeasure (drainStepFail s) < queueMeasure s := by
  have hlen : ¬ s.queue.length = 0 := by
    simpa [List.length_eq_zero] using h
  rw [drainStepFail, if_neg hlen]
  have hperm : ((sortByPriority s.queue).map opWeight).sum =
      (s.queue.map opWeight).sum :=
    ((stableSort_perm _ s.queue).map opWeight).sum_eq
  have hsplit : (sortByPriority s.queue).map opWeight =
      ((drainBatch s).map opWeight) ++ ((drainRest s).map opWeight) := by
    rw [drainBatch, drainRest, ← List.map_append, List.take_append_drop]
  have hb1 : 1 ≤ (drainBatch s).length := by
    rw [drainBatch, List.length_take]
    have h2 : (sortByPriority s.queue).length = s.queue.length :=
      (stableSort_perm _ s.queue).length_eq
    simp only [BATCH_SIZE]
    omega
  have hreq := requeued_weight_le (drainBatch s)
  simp only [queueMeasure, List.map_append, List.sum_append]
  rw [← hperm, hsplit, List.sum_append]
  omega

theorem drainStepFail_empties (n : Nat) :
    ∀ s : QueueState, queueMeasure s ≤ n →
      (drainStepFail^[n] s).queue = [] := by
  induction n with
  | zero =>
    intro s h
    rw [Function.iterate_zero_apply]
    rcases hq : s.queue with _ | ⟨op, rest⟩
    · rfl
    · exfalso
      have h1 := opWeight_pos op
      simp only [queueMeasure, hq, List.map_cons, List.sum_cons] at h
      omega
  | succ n ih =>
    intro s h
    rw [Function.iterate_succ_apply]
    by_cases hq : s.queue = []
    · have hfix : drainStepFail s = s := by
        rw [drainStepFail]
        simp [hq]
      rw [hfix]
      apply ih
      simp [queueMeasure, hq]
    · apply ih
      have h2 := queueMeasure_drainStepFail s hq
      omega

/-! ## Claim C8: retry bound and in-memory isolation -/

/-- C8: on a failed batch transaction, every batch operation with
`retryCount < MAX_RETRIES` is re-enqueued with the count incremented by
one; re-enqueued operations never exceed `MAX_RETRIES`, so an operation
whose count has reached the bound is dropped for good; no number of
failing drain ticks ever touches the in-memory `games` map; and if the
persistence layer throws on every attempt, the whole queue is empty
after at most `queueMeasure s` ticks while the games map is intact. -/
theorem claim_C8 :
    (∀ (s : QueueState) (n : Nat),
        (drainStepFail^[n] s).games = s.games) ∧
    (∀ (s : QueueState) (op : DbOperation),
        s.queue ≠ [] → op ∈ drainBatch s →
        op.retryCount < MAX_RETRIES →
        { op with retryCount := op.retryCount + 1 } ∈
          (drainStepFail s).queue) ∧
    (∀ s : QueueState,
        (∀ op ∈ s.queue, op.retryCount ≤ MAX_RETRIES) →
        ∀ op ∈ (drainStepFail s).queue, op.retryCount ≤ MAX_RETRIES) ∧
    (∀ s : QueueState,
        (drainStepFail^[queueMeasure s] s).queue = [] ∧
        (drainStepFail^[queueMeasure s] s).games = s.games) := by
  have hgames : ∀ (s : QueueState) (n : Nat),
      (drainStepFail^[n] s).games = s.games := by
    intro s n
    induction n with
    | zero => rfl
    | succ n ih =>
      rw [Function.iterate_succ_apply']
      rw [drainStepFail_games, ih]
  refine ⟨hgames, ?_, ?_, ?_⟩
  · intro s op hq hop hrc
    have hlen : ¬ s.queue.length = 0 := by
      simpa [List.length_eq_zero] using hq
    rw [drainStepFail, if_neg hlen]
    refine List.mem_append_right _ (List.mem_filterMap.mpr ⟨op, hop, ?_⟩)
    rw [if_pos hrc]
  · intro s hbound op hop
    by_cases hlen : s.queue.length = 0
    · rw [drainStepFail, if_pos hlen] at hop
      exact hbound op hop
    · rw [drainStepFail, if_neg hlen] at hop
      rcases List.mem_append.mp hop with h1 | h1

      · have h2 : op ∈ sortByPriority s.queue := by
          rw [drainRest] at h1
          exact List.mem_of_mem_drop h1
        have h3 : op ∈ s.queue :=
          (stableSort_perm _ s.queue).mem_iff.mp h2
        exact hbound op h3
      · obtain ⟨op0, _, heq⟩ := List.mem_filterMap.mp h1
        by_cases h4 : op0.retryCount < MAX_RETRIES
        · rw [if_pos h4] at heq
          have h5 : op.retryCount = op0.retryCount + 1 := by
            have h6 := Option.some.inj heq
            rw [← h6]
          have hM : MAX_RETRIES = 3 := rfl
          rw [hM] at h4 ⊢
          omega
        · rw [if_neg h4] at heq
          exact absurd heq (by simp)
  · intro s
    exact ⟨drainStepFail_empties (queueMeasure s) s (Nat.le_refl _),
      hgames s (queueMeasure s)⟩

/-- C8 witness: in the concrete queue holding a fresh move operation
(`retryCount 0`) and an exhausted completion operation
(`retryCount 3 = MAX_RETRIES`), one failing tick re-enqueues the move
with `retryCount 1`, keeps every count within the bound, and iterating
`queueMeasure` failing ticks empties the queue without touching the
games map. -/
theorem claim_C8_witness :
    { payload := "move1", retryCount := 1, priority := 1 } ∈
      (drainStepFail exQueue).queue ∧
    ({ payload := "move1", retryCount := 1, priority := 1 } :
      DbOperation).retryCount ≤ MAX_RETRIES ∧
    (drainStepFail^[queueMeasure exQueue] exQueue).queue = [] ∧
    (drainStepFail^[queueMeasure exQueue] exQueue).games =
      exQueue.games := by
  refine ⟨?_, ?_, ?_, ?_⟩
  · have h := claim_C8.2.1 exQueue
      { payload := "move1", retryCount := 0, priority := 1 }
      (by decide) (by decide) (by decide)
    exact h
  · exact claim_C8.2.2.1 exQueue (by decide)
      { payload := "move1", retryCount := 1, priority := 1 }
      (claim_C8.2.1 exQueue
        { payload := "move1", retryCount := 0, priority := 1 }
        (by decide) (by decide) (by decide))
  · exact (claim_C8.2.2.2 exQueue).1
  · exact (claim_C8.2.2.2 exQueue).2

/-! ## Characterization of the server win check -/

theorem lastWrite_fold_acc (a : String) (t : List Guess) :
    ∀ acc : Option Word,
      t.foldl (fun acc gu => if gu.playerId = a then some gu.word
        else acc) acc =
      match t.foldl (fun acc gu => if gu.playerId = a then some gu.word
        else acc) none with
      | some w => some w
      | none => acc := by
  induction t with
  | nil =>
    intro acc
    rfl
  | cons gu rest ih =>
    intro acc
    simp only [List.foldl_cons]
    by_cases h : gu.playerId = a
    · rw [if_pos h, if_pos h, ih (some gu.word)]
      cases hF : rest.foldl (fun acc gu =>
          if gu.playerId = a then some gu.word else acc) none <;>
        simp [hF]
    · rw [if_neg h, if_neg h]
      exact ih acc

theorem mapGet_foldSet (l : List Guess) :
    ∀ (m : List (String × Word)) (a : String),
      mapGet (l.foldl (fun m gu => mapSet m gu.playerId gu.word) m) a =
        match l.foldl (fun acc gu => if gu.playerId = a then
          some gu.word else acc) none with
        | some w => some w
        | none => mapGet m a := by
  induction l with
  | nil =>
    intro m a
    rfl
  | cons gu rest ih =>
    intro m a
    simp only [List.foldl_cons]
    rw [ih (mapSet m gu.playerId gu.word) a,
      lastWrite_fold_acc a rest
        (if gu.playerId = a then some gu.word else none)]
    cases hF : rest.foldl (fun acc gu =>
        if gu.playerId = a then some gu.word else acc) none
    · by_cases h : gu.playerId = a <;>
        simp [hF, h, mapGet_mapSet]
    · simp [hF]

theorem keys_mapSet_mem {α : Type} (m : List (String × α))
    (k a : String) (v : α) :
    a ∈ (mapSet m k v).map Prod.fst ↔
      a ∈ m.map Prod.fst ∨ a = k := by
  induction m with
  | nil =>
    simp [mapSet]
  | cons e rest ih =>
    by_cases h : e.1 = k
    · subst h
      simp [mapSet]
      tauto
    · simp only [mapSet, if_neg h, List.map_cons, List.mem_cons, ih]
      tauto

theorem keys_mapSet_nodup {α : Type} (m : List (String × α))
    (k : String) (v : α) (h : (m.map Prod.fst).Nodup) :
    ((mapSet m k v).map Prod.fst).Nodup := by
  induction m with
  | nil =>
    simp [mapSet]
  | cons e rest ih =>
    simp only [List.map_cons, List.nodup_cons] at h
    by_cases hk : e.1 = k
    · have hset : mapSet (e :: rest) k v = (k, v) :: rest := by
        simp [mapSet, hk]
      rw [hset]
      simp only [List.map_cons, List.nodup_cons]
      rw [← hk]
      exact h
    · simp only [mapSet, if_neg hk, List.map_cons, List.nodup_cons]
      constructor
      · rw [keys_mapSet_mem]
        push_neg
        exact ⟨h.1, hk⟩
      · exact ih h.2

theorem foldSet_keys_mem (l : List Guess) :
    ∀ (m : List (String × Word)) (a : String),
      a ∈ ((l.foldl (fun m gu => mapSet m gu.playerId gu.word)
        m).map Prod.fst) ↔
        a ∈ m.map Prod.fst ∨ a ∈ l.map (fun gu => gu.playerId) := by
  induction l with
  | nil =>
    intro m a
    simp
  | cons gu rest ih =>
    intro m a
    simp only [List.foldl_cons, List.map_cons, List.mem_cons]
    rw [ih, keys_mapSet_mem]
    tauto

theorem foldSet_keys_nodup (l : List Guess) :
    ∀ m : List (String × Word), (m.map Prod.fst).Nodup →
      ((l.foldl (fun m gu => mapSet m gu.playerId gu.word)
        m).map Prod.fst).Nodup := by
  induction l with
  | nil =>
    intro m h
    exact h
  | cons gu rest ih =>
    intro m h
    simp only [List.foldl_cons]
    exact ih _ (keys_mapSet_nodup m gu.playerId gu.word h)

theorem mapGet_of_mem_nodup {α : Type} {m : List (String × α)}
    (h : (m.map Prod.fst).Nodup) {e : String × α} (he : e ∈ m) :
    mapGet m e.1 = some e.2 := by
  induction m with
  | nil => cases he
  | cons e0 rest ih =>
    simp only [List.map_cons, List.nodup_cons] at h
    rcases List.mem_cons.mp he with h1 | h1
    · subst h1
      simp [mapGet]
    · have hne : ¬ e0.1 = e.1 := by
        intro hh
        exact h.1 (hh ▸ List.mem_map.mpr ⟨e, h1, rfl⟩)
      simp only [mapGet, if_neg hne]
      exact ih h.2 h1

/-! ## Claim C2: what the win check actually requires -/

/-- C2 amended: the server win check consults only the guess log — the
roster plays no role — and reports `w` exactly when the log holds at
least two guesses, at least two distinct author ids occur in it, and the
most recent (chronologically last) guess of every author is `w`.  A
departed author's retained guesses therefore count toward or against a
win, and a current roster player with no moves does not block one. -/
theorem claim_C2_amended :
    (∀ g1 g2 : Game, g1.guesses = g2.guesses →
        checkForMatchingGuess g1 = checkForMatchingGuess g2) ∧
    (∀ (g : Game) (w : Word),
        checkForMatchingGuess g = some w ↔
          2 ≤ g.guesses.length ∧ 2 ≤ (authorsOf g).length ∧
          ∀ a ∈ authorsOf g, lastGuessWordOf g a = some w) := by
  constructor
  · intro g1 g2 h
    simp only [checkForMatchingGuess, sortGuesses, h]
  · intro g w
    by_cases hlen : g.guesses.length < 2
    · rw [checkForMatchingGuess, if_pos hlen]
      simp only [false_iff, (by simp : (none : Option Word) ≠ some w),
        not_and]
      intro h2
      omega
    · rw [checkForMatchingGuess, if_neg hlen]
      have hM := mapGet_foldSet (sortGuesses g.guesses) []
      have hkeysmem := foldSet_keys_mem (sortGuesses g.guesses) []
      have hkeysnodup := foldSet_keys_nodup (sortGuesses g.guesses) []
        (by simp)
      have hperm : ∀ a : String,
          a ∈ (sortGuesses g.guesses).map (fun gu => gu.playerId) ↔
            a ∈ g.guesses.map (fun gu => gu.playerId) :=
        fun a => ((stableSort_perm _ g.guesses).map
          (fun gu => gu.playerId)).mem_iff
      have hauth : ∀ a : String, a ∈ authorsOf g ↔
          a ∈ ((sortGuesses g.guesses).foldl
            (fun m gu => mapSet m gu.playerId gu.word) []).map
              Prod.fst := by
        intro a
        rw [authorsOf, List.mem_dedup, hkeysmem, ← hperm a]
        simp
      have hget : ∀ a : String,
          mapGet ((sortGuesses g.guesses).foldl
            (fun m gu => mapSet m gu.playerId gu.word) []) a =
            lastGuessWordOf g a := by
        intro a
        rw [hM a, lastGuessWordOf]
        cases hF : (sortGuesses g.guesses).foldl (fun acc gu =>
            if gu.playerId = a then some gu.word else acc) none <;>
          simp [hF, mapGet]
      have hlenauth : (authorsOf g).length =
          (((sortGuesses g.guesses).foldl
            (fun m gu => mapSet m gu.playerId gu.word) []).map
              Prod.fst).length := by
        have hp : (authorsOf g).Perm
            (((sortGuesses g.guesses).foldl
              (fun m gu => mapSet m gu.playerId gu.word) []).map
                Prod.fst) :=
          (List.perm_ext_iff_of_nodup (List.nodup_dedup _)
            hkeysnodup).mpr hauth
        exact hp.length_eq
      set M := (sortGuesses g.guesses).foldl
        (fun m gu => mapSet m gu.playerId gu.word) [] with hMdef
      have hvalskeys : (M.map (fun e => e.2)).length =
          (M.map Prod.fst).length := by
        simp
      have hvals_get : (∀ v ∈ M.map (fun e => e.2), v = w) ↔
          (∀ a ∈ M.map Prod.fst, mapGet M a = some w) := by
        constructor
        · intro hall a ha
          obtain ⟨e, he, rfl⟩ := List.mem_map.mp ha
          rw [mapGet_of_mem_nodup hkeysnodup he]
          rw [hall e.2 (List.mem_map.mpr ⟨e, he, rfl⟩)]
        · intro hall v hv
          obtain ⟨e, he, rfl⟩ := List.mem_map.mp hv
          have h1 := hall e.1 (List.mem_map.mpr ⟨e, he, rfl⟩)
          rw [mapGet_of_mem_nodup hkeysnodup he] at h1
          exact Option.some.inj h1
      constructor
      · intro hchk
        by_cases hv2 : 2 ≤ (M.map (fun e => e.2)).length
        · refine ⟨by omega, by rw [hlenauth, ← hvalskeys]; exact hv2, ?_⟩
          intro a ha
          rw [← hget a]
          cases hvals : M.map (fun e => e.2) with
          | nil =>
            rw [hvals] at hv2
            simp at hv2
          | cons f t =>
            rw [if_pos hv2, hvals] at hchk
            simp only [] at hchk
            by_cases hall : (f :: t).all (fun x => x = f) = true
            · rw [if_pos hall] at hchk
              have hfw : f = w := Option.some.inj hchk
              have hvw : ∀ v ∈ M.map (fun e => e.2), v = w := by
                intro v hvmem
                rw [hvals] at hvmem
                have := List.all_eq_true.mp hall v hvmem
                rw [← hfw]
                exact of_decide_eq_true this
              exact (hvals_get.mp hvw) a ((hauth a).mp ha)
            · rw [if_neg hall] at hchk
              cases hchk
        · rw [if_neg hv2] at hchk
          cases hchk
      · rintro ⟨h2, hauthlen, hlast⟩
        have hv2 : 2 ≤ (M.map (fun e => e.2)).length := by
          rw [hvalskeys, ← hlenauth]
          exact hauthlen
        rw [if_pos hv2]
        have hallw : ∀ v ∈ M.map (fun e => e.2), v = w := by
          apply hvals_get.mpr
          intro a ha
          rw [hget a]
          exact hlast a ((hauth a).mpr ha)
        cases hvals : M.map (fun e => e.2) with
        | nil =>
          rw [hvals] at hv2
          simp at hv2
        | cons f t =>
          have hfw : f = w :=
            hallw f (by rw [hvals]; exact List.mem_cons_self _ _)
          have hall : (f :: t).all (fun x => x = f) = true := by
            apply List.all_eq_true.mpr
            intro x hx
            have hxw : x = w := hallw x (by rw [hvals]; exact hx)
            exact decide_eq_true (by rw [hxw, hfw])
          simp only []
          rw [if_pos hall, hfw]

/-- C2 witness: the characterization applied to the four-move scenario
game — its log has four guesses, two authors, and both authors' most
recent value is `"dog"`. -/
theorem claim_C2_witness :
    2 ≤ exC1game4.guesses.length ∧ 2 ≤ (authorsOf exC1game4).length ∧
    ∀ a ∈ authorsOf exC1game4,
      lastGuessWordOf exC1game4 a = some dogWord := by
  exact (claim_C2_amended.2 exC1game4 dogWord).mp (by decide)

/-! ## Normalization of stored words -/

theorem sortGuesses_pair (a b : Guess) (h : a.timestamp ≤ b.timestamp) :
    sortGuesses [a, b] = [a, b] := by
  simp [sortGuesses, stableSort, insertSorted, h]

/-- Two accepted guesses whose normalized words agree complete the
two-player session with that word as the winning word. -/
theorem makeGuess_pair_completes (v1 v2 : Word)
    (heq : normalizeWord v1 = normalizeWord v2) :
    (mapGet (makeGuess (makeGuess exStatePlaying "s1" v1 "m1" 0).state
        "s2" v2 "m2" 1).state.games "g1").map
      (fun g => (g.status, g.winningWord)) =
      some (GameStatus.COMPLETED, some (normalizeWord v1)) := by
  simp [makeGuess, mapGet, mapSet, exStatePlaying, exGamePlaying,
    exP1, exP2, makeGuessResultGame, appendedGuess, checkForMatchingGuess,
    sortGuesses, stableSort, insertSorted, heq, List.foldl, List.find?,
    List.length, List.map, List.all]

theorem dropWhile_append_all {a l : List Char}
    (ha : ∀ c ∈ a, jsIsSpace c = true) :
    List.dropWhile jsIsSpace (a ++ l) = List.dropWhile jsIsSpace l := by
  rw [List.dropWhile_append, List.dropWhile_eq_nil_iff.mpr ha]
  rfl

/-- Trimming a word that consists of a whitespace prefix, a core with
non-whitespace ends, and a whitespace suffix yields exactly the core. -/
theorem jsTrim_sandwich (a mid b : List Char)
    (ha : ∀ c ∈ a, jsIsSpace c = true) (hb : ∀ c ∈ b, jsIsSpace c = true)
    (hh : ∀ h : mid ≠ [], jsIsSpace (mid.head h) = false)
    (hl : ∀ h : mid ≠ [], jsIsSpace (mid.getLast h) = false) :
    jsTrim (a ++ mid ++ b) = mid := by
  rw [jsTrim, List.append_assoc, dropWhile_append_all ha]
  cases mid with
  | nil =>
    rw [List.nil_append, List.dropWhile_eq_nil_iff.mpr hb]
    rfl
  | cons m0 mrest =>
    have hne : (m0 :: mrest : List Char) ≠ [] := by simp
    have h0 : jsIsSpace m0 = false := hh hne
    rw [List.cons_append, List.dropWhile_cons, h0]
    simp only [Bool.false_eq_true, if_false]
    rw [← List.cons_append, List.reverse_append,
      dropWhile_append_all (fun c hc => hb c (List.mem_reverse.mp hc))]
    cases hrev : (m0 :: mrest).reverse with
    | nil => exact absurd hrev (by simp)
    | cons r0 rrest =>
      have hr0 : jsIsSpace r0 = false := by
        have hgl := hl hne
        have hq1 : (m0 :: mrest).getLast? = some r0 := by
          rw [List.getLast?_eq_head?_reverse, hrev]
          rfl
        have hq2 : (m0 :: mrest).getLast? =
            some ((m0 :: mrest).getLast hne) :=
          List.getLast?_eq_getLast _ hne
        have hq3 : (m0 :: mrest).getLast hne = r0 :=
          Option.some.inj (hq2.symm.trans hq1)
        rw [← hq3]
        exact hgl
      rw [List.dropWhile_cons, hr0]
      simp only [Bool.false_eq_true, if_false]
      rw [← hrev, List.reverse_reverse]

/-! ## Claim C10: case- and whitespace-insensitive matching -/

/-- C10: both `makeGuess` and `setSecretWord` store
`word.toLowerCase().trim()`, so two submitted words that differ only in
letter case and in leading/trailing whitespace produce equal stored
values — the guess records appended for them carry the same word — and
the win check treats them as matching: submitting the two words in the
two-player session completes it with the common normalized word as the
winning word. -/
theorem claim_C10 (w1 w2 : Word) (h : OnlyCaseOuterWsDiffer w1 w2) :
    normalizeWord w1 = normalizeWord w2 ∧
    (appendedGuess exP1 w1 "m1" 0).word =
      (appendedGuess exP2 w2 "m2" 1).word ∧
    (mapGet (makeGuess (makeGuess exStatePlaying "s1" w1 "m1" 0).state
        "s2" w2 "m2" 1).state.games "g1").map
      (fun g => (g.status, g.winningWord)) =
      some (GameStatus.COMPLETED, some (normalizeWord w1)) := by
  obtain ⟨core, pre1, post1, pre2, post2, h1, h2, hp1, hq1, hp2, hq2,
    hhd, hlt⟩ := h
  have hhd2 : ∀ hc : core ≠ [], jsIsSpace (core.head hc) = false :=
    fun hc => by simpa using hhd hc
  have hlt2 : ∀ hc : core ≠ [], jsIsSpace (core.getLast hc) = false :=
    fun hc => by simpa using hlt hc
  have e1 : normalizeWord w1 = core := by
    rw [normalizeWord, h1]
    exact jsTrim_sandwich pre1 core post1 hp1 hq1 hhd2 hlt2
  have e2 : normalizeWord w2 = core := by
    rw [normalizeWord, h2]
    exact jsTrim_sandwich pre2 core post2 hp2 hq2 hhd2 hlt2
  have heq : normalizeWord w1 = normalizeWord w2 := by rw [e1, e2]
  exact ⟨heq, by simp [appendedGuess, heq],
    makeGuess_pair_completes w1 w2 heq⟩

/-- C10 witness: `" Dog"` and `"dog "` store the same word `"dog"`, and
submitting them in the two-player session completes it with winning word
`"dog"`. -/
theorem claim_C10_witness :
    normalizeWord [' ', 'D', 'o', 'g'] =
      normalizeWord ['d', 'o', 'g', ' '] ∧
    (appendedGuess exP1 [' ', 'D', 'o', 'g'] "m1" 0).word =
      (appendedGuess exP2 ['d', 'o', 'g', ' '] "m2" 1).word ∧
    (mapGet (makeGuess (makeGuess exStatePlaying "s1"
        [' ', 'D', 'o', 'g'] "m1" 0).state
        "s2" ['d', 'o', 'g', ' '] "m2" 1).state.games "g1").map
      (fun g => (g.status, g.winningWord)) =
      some (GameStatus.COMPLETED,
        some (normalizeWord [' ', 'D', 'o', 'g'])) := by
  exact claim_C10 [' ', 'D', 'o', 'g'] ['d', 'o', 'g', ' ']
    ⟨['d', 'o', 'g'], [' '], [], [], [' '], by decide, by decide,
      by decide, by decide, by decide, by decide,
      fun _ => by
        show ¬ jsIsSpace 'd' = true
        decide,
      fun _ => by
        show ¬ jsIsSpace 'g' = true
        decide⟩

end MatchMyGuess
